import Mathlib

/-!
# Verification of the mini-react reconciliation engine and hook runtime

Shallow embedding of `src/mini-react` (two-phase reconciler, hooks runtime,
root API) and proofs of the specified properties.

Modelling conventions:
* The browser DOM is an arena (`Heap`): a list of `DomData`, node ids are
  list indices.  Allocation appends; `document.createElement` never reuses ids.
* JS prop values are modelled by `PropVal`; `===` / `Object.is` is `=` on
  `PropVal` (reference-typed values carry an id, so reference equality is id
  equality).
* A component function (`vnode.type` when it is a function) is modelled by a
  numeric id `fn` together with an environment `env : Nat → Props → Option VNode`
  giving each component function's (pure) render result; `none` models a
  component returning `null`.
* The reconciler's recursion through component expansion is not structurally
  bounded, so the reconcile/mount functions take a fuel argument; `none`
  means "out of fuel".  For every actual run there is a sufficient fuel, and
  all theorems quantify over the fuel.
* Side effects of the render phase are captured as a trace (`List REvent`):
  executed effect-cleanup handles (from `unmountComponent`) and mutation
  records pushed onto `pendingEffects`.
-/

set_option maxHeartbeats 1000000

namespace MiniReact

/-- A JS property value.  `str`/`num`/`boolean` are primitives (where `===`
is value equality); `refVal id` is an object/function reference (where `===`
is reference identity, modelled by id equality). -/
inductive PropVal where
  | str (s : String)
  | num (n : Int)
  | boolean (b : Bool)
  | refVal (id : Nat)
  deriving DecidableEq

/-- The props object of a vnode, excluding the `children` and `key` entries
(which the model stores structurally on the vnode; the reconciler's prop
diff skips both). -/
abbrev Props := List (String × PropVal)

/-- `reconciler.js` (type-match host-element branch): whether any prop other
than `children`/`key` was added, removed, or changed (`!==`) between the old
and new props.  Mirrors the two `Object.keys(...).some(...)` checks. -/
def hasPropsChanged (oldProps newProps : Props) : Bool :=
  (newProps.map Prod.fst).any (fun k =>
    !(k == "children" || k == "key") &&
      (List.lookup k oldProps != List.lookup k newProps)) ||
  (oldProps.map Prod.fst).any (fun k =>
    !(k == "children" || k == "key") && (List.lookup k newProps).isNone)

/-- The spec's notion of an unchanged prop set: no prop added, removed, or
changed in value (`===`) between the two props objects. -/
def PropsUnchanged (oldProps newProps : Props) : Prop :=
  (∀ k, k ∈ newProps.map Prod.fst → List.lookup k oldProps = List.lookup k newProps) ∧
  (∀ k, k ∈ oldProps.map Prod.fst → (List.lookup k newProps).isSome)

/-- One concrete host (DOM) node: a text node or an element with a tag, the
currently applied props and the list of child node ids. -/
inductive DomData where
  | elem (tag : String) (props : Props) (kids : List Nat)
  | text (value : String)
  deriving DecidableEq

/-- The host-node arena; node ids are indices. -/
abbrev Heap := List DomData

/-- Allocate a fresh host node. -/
def allocDom (h : Heap) (d : DomData) : Heap × Nat := (h ++ [d], h.length)

/-- Overwrite the child list of element node `i`. -/
def setKids (h : Heap) (i : Nat) (ks : List Nat) : Heap :=
  match h.get? i with
  | some (.elem t p _) => h.set i (.elem t p ks)
  | _ => h

/-- The current child list of node `p` (empty for text / missing nodes). -/
def childNodes (h : Heap) (p : Nat) : List Nat :=
  match h.get? p with
  | some (.elem _ _ ks) => ks
  | _ => []

/-- `parent.childNodes[i]`. -/
def childAt (h : Heap) (p i : Nat) : Option Nat := (childNodes h p).get? i

/-- Remove `n` from a node's child list. -/
def eraseKid (d : DomData) (n : Nat) : DomData :=
  match d with
  | .elem t p ks => .elem t p (ks.erase n)
  | d => d

/-- Detach node `n` from whatever parent currently holds it (the DOM moves a
node on `appendChild`/`insertBefore`). -/
def detach (h : Heap) (n : Nat) : Heap := h.map (fun d => eraseKid d n)

/-- DOM `parent.appendChild(child)`: detach then append. -/
def appendChild (h : Heap) (parent child : Nat) : Heap :=
  let h1 := detach h child
  match h1.get? parent with
  | some (.elem t p ks) => h1.set parent (.elem t p (ks ++ [child]))
  | _ => h1

/-- DOM `parent.removeChild(child)` (erases the child if present; the real
DOM throws when absent, which the commit path never hits for committed trees). -/
def removeChild (h : Heap) (parent child : Nat) : Heap :=
  match h.get? parent with
  | some (.elem t p ks) => h.set parent (.elem t p (ks.erase child))
  | _ => h

/-- Insert `node` before the first occurrence of `r` in a child list (appends
when `r` does not occur, matching the only way the commit path calls it). -/
def insertBeforeList (ks : List Nat) (node r : Nat) : List Nat :=
  match ks with
  | [] => [node]
  | x :: xs => if x = r then node :: x :: xs else x :: insertBeforeList xs node r

/-- DOM `parent.insertBefore(node, ref)`: detach `node`, then insert it
before `ref` (append when `ref` is `null`). -/
def insertBefore (h : Heap) (parent node : Nat) (ref : Option Nat) : Heap :=
  let h1 := detach h node
  match h1.get? parent with
  | some (.elem t p ks) =>
      let ks' := match ref with
        | none => ks ++ [node]
        | some r => insertBeforeList ks node r
      h1.set parent (.elem t p ks')
  | _ => h1

/-- DOM `parent.replaceChild(newNode, oldNode)`: detach `newNode`, then put
it in `oldNode`'s position. -/
def replaceChild (h : Heap) (parent newN oldN : Nat) : Heap :=
  let h1 := detach h newN
  match h1.get? parent with
  | some (.elem t p ks) =>
      h1.set parent (.elem t p (ks.map (fun k => if k = oldN then newN else k)))
  | _ => h1

/-- A virtual node, with its transient annotations:
`dom` is `__dom`, and for components `child` is `__childVNode` and `hooks`
is the per-slot stored effect-cleanup handle of `__hooks` (the only part of
a hook slot `unmountComponent` reads).  Fresh vnodes carry `none`/`[]`
annotations. -/
inductive VNode where
  | text (value : String) (dom : Option Nat)
  | elem (tag : String) (props : Props) (key : Option PropVal)
      (children : List VNode) (dom : Option Nat)
  | comp (fn : Nat) (props : Props) (key : Option PropVal)
      (children : List VNode) (hooks : List (Option Nat))
      (child : Option VNode) (dom : Option Nat)

/-- The JS value of `vnode.type`: the string `'TEXT_ELEMENT'`, a host tag
string, or a component function (identified by id). -/
def VNode.jsType : VNode → Sum String Nat
  | .text _ _ => .inl "TEXT_ELEMENT"
  | .elem t _ _ _ _ => .inl t
  | .comp f _ _ _ _ _ _ => .inr f

/-- `component.js` `isComponent`: `typeof vnode.type === 'function'`. -/
def VNode.isComp : VNode → Bool
  | .comp _ _ _ _ _ _ _ => true
  | _ => false

/-- The `__dom` annotation. -/
def VNode.domAnn : VNode → Option Nat
  | .text _ d => d
  | .elem _ _ _ _ d => d
  | .comp _ _ _ _ _ _ d => d

/-- The `key` prop (`props.key`, `null`/absent modelled as `none`). -/
def VNode.keyAnn : VNode → Option PropVal
  | .text _ _ => none
  | .elem _ _ k _ _ => k
  | .comp _ _ k _ _ _ _ => k

/-- Replace the `__dom` annotation. -/
def VNode.withDom : VNode → Option Nat → VNode
  | .text v _, d => .text v d
  | .elem t p k cs _, d => .elem t p k cs d
  | .comp f p k cs hs ch _, d => .comp f p k cs hs ch d

/-- `component.js` `getComponentDom`: follow `__dom`, else the
`__childVNode` chain. -/
def getComponentDom : Option VNode → Option Nat
  | none => none
  | some (.text _ d) => d
  | some (.elem _ _ _ _ d) => d
  | some (.comp _ _ _ _ _ child d) =>
      match d with
      | some dd => some dd
      | none => getComponentDom child

/-- `reconcileKeyedChildren`'s per-child resolution
`child.__dom || getComponentDom(child)`. -/
def resolveDom (c : VNode) : Option Nat :=
  match c.domAnn with
  | some d => some d
  | none => getComponentDom (some c)

/-- `hooks.js` `unmountComponent`: run every stored effect cleanup handle of
the component's hook slots, in slot order.  The result is the list of
executed handles. -/
def unmountComponent : VNode → List Nat
  | .comp _ _ _ _ hooks _ _ => hooks.filterMap id
  | _ => []

mutual

/-- `reconciler.js` `cleanupEffects`: recursively run the unmount cleanup of
every component occurrence in a vnode tree (components via `__childVNode`,
host elements via `props.children`).  The result is the list of executed
cleanup handles, in execution order. -/
def cleanupEffects : Option VNode → List Nat
  | none => []
  | some (.comp f p k cs hooks child d) =>
      unmountComponent (.comp f p k cs hooks child d) ++ cleanupEffects child
  | some (.elem _ _ _ children _) => cleanupEffectsList children
  | some (.text _ _) => []
termination_by v => sizeOf v
decreasing_by
  all_goals simp_wf
  all_goals omega

/-- `cleanupEffects` mapped over a child list. -/
def cleanupEffectsList : List VNode → List Nat
  | [] => []
  | c :: cs => cleanupEffects (some c) ++ cleanupEffectsList cs
termination_by l => sizeOf l
decreasing_by
  all_goals simp_wf
  all_goals (have hcs : 0 < sizeOf cs := by cases cs <;> simp_arith
             omega)

end

/-- A mutation record pushed onto `pendingEffects` during the render phase.
`updText`/`updProps` carry the data the JS `updateFn` closure captures. -/
inductive MRecord where
  | placement (dom : Nat) (parentDom : Option Nat)
  | deletion (dom : Option Nat) (parentDom : Option Nat)
  | replace (newDom : Nat) (oldDom : Option Nat) (parentDom : Option Nat)
  | updText (dom : Option Nat) (oldValue newValue : String)
  | updProps (dom : Option Nat) (oldProps newProps : Props)
  | reorder (parentDom : Option Nat) (desiredOrder : List Nat)
  deriving DecidableEq

/-- One observable event of the render phase: an executed effect-cleanup
handle, or a mutation record appended to the pending queue. -/
inductive REvent where
  | cleanup (handle : Nat)
  | record (r : MRecord)
  deriving DecidableEq

/-- The mutation records contained in a render-phase trace, in order (the
contents of `pendingEffects` contributed by the traced call). -/
def recordsOf (tr : List REvent) : List MRecord :=
  tr.filterMap (fun e => match e with
    | .record r => some r
    | .cleanup _ => none)

/-- Record classifiers (for counting records of each kind in a trace). -/
def isReplaceRec : MRecord → Bool
  | .replace _ _ _ => true
  | _ => false

def isUpdateRec : MRecord → Bool
  | .updText _ _ _ => true
  | .updProps _ _ _ => true
  | _ => false

def isReorderRec : MRecord → Bool
  | .reorder _ _ => true
  | _ => false

/-- `render.js` `createDom`: create one host node (props applied via
`updateProps(dom, {}, props)`, children not attached).  Never called on a
component vnode. -/
def createDom (h : Heap) (v : VNode) : Heap × Nat :=
  match v with
  | .text s _ => allocDom h (.text s)
  | .elem t p _ _ _ => allocDom h (.elem t p [])
  | .comp _ p _ _ _ _ _ => allocDom h (.elem "" p [])

/-- The component-render environment: `fn`'s render result on given props
(`none` models returning `null`). -/
abbrev CompEnv := Nat → Props → Option VNode

/-- JS `Map.set` on an association list: replaces the value in place when the
key exists (keeping its insertion position), else appends. -/
def assocSet (m : List (PropVal × VNode)) (k : PropVal) (v : VNode) :
    List (PropVal × VNode) :=
  match m with
  | [] => [(k, v)]
  | (k', v') :: rest => if k' = k then (k, v) :: rest else (k', v') :: assocSet rest k v

/-- JS `Map.get`. -/
def assocGet (m : List (PropVal × VNode)) (k : PropVal) : Option VNode :=
  match m with
  | [] => none
  | (k', v') :: rest => if k' = k then some v' else assocGet rest k

/-- JS `Map.delete`. -/
def assocDelete (m : List (PropVal × VNode)) (k : PropVal) : List (PropVal × VNode) :=
  match m with
  | [] => []
  | (k', v') :: rest => if k' = k then rest else (k', v') :: assocDelete rest k

/-- `reconcileKeyedChildren` step 1: partition the old children into the
key-indexed map (insertion order) and the unkeyed queue (original order). -/
def buildKeyed (oldCs : List VNode) : List (PropVal × VNode) × List VNode :=
  oldCs.foldl (fun acc c =>
    match c.keyAnn with
    | some k => (assocSet acc.1 k c, acc.2)
    | none => (acc.1, acc.2 ++ [c])) ([], [])

mutual

/-- `reconciler.js` `mountVNode` (two-phase version): recursively build a
detached host subtree for a fresh vnode; returns the new heap, the
annotated vnode, and the root host node id. -/
def mountVNode (env : CompEnv) : Nat → Heap → VNode → Option (Heap × VNode × Nat)
  | 0, _, _ => none
  | fuel + 1, h, v =>
    match v with
    | .comp f p k cs _ _ _ =>
        -- setCurrentComponent(vnode); childVNode = vnode.type(vnode.props);
        -- clearCurrentComponent(); dom = mountVNode(childVNode)
        match env f p with
        | none => none  -- mountVNode(null) would throw; components mounted this way render a vnode
        | some childVNode =>
          match mountVNode env fuel h childVNode with
          | none => none
          | some (h1, child', d) =>
              some (h1, .comp f p k cs [] (some child') (some d), d)
    | .text s _ =>
        let (h1, d) := createDom h (.text s none)
        some (h1, .text s (some d), d)
    | .elem t p k cs _ =>
        let (h1, d) := createDom h (.elem t p k cs none)
        match mountList env fuel h1 cs with
        | none => none
        | some (h2, cs', kids) =>
            -- the children were appendChild-ed one by one into the fresh node
            some (setKids h2 d kids, .elem t p k cs' (some d), d)

/-- `vnode.props.children.forEach(child => dom.appendChild(mountVNode(child)))`. -/
def mountList (env : CompEnv) : Nat → Heap → List VNode → Option (Heap × List VNode × List Nat)
  | 0, _, _ => none
  | _ + 1, h, [] => some (h, [], [])
  | fuel + 1, h, c :: cs =>
    match mountVNode env fuel h c with
    | none => none
    | some (h1, c', d) =>
      match mountList env fuel h1 cs with
      | none => none
      | some (h2, cs', ds) => some (h2, c' :: cs', d :: ds)

end

/-- `reconcile`'s component-branch hook reuse:
`if (isComponent(oldVNode) && oldVNode.type === newVNode.type)
newVNode.__hooks = oldVNode.__hooks` (else the fresh vnode's own hooks,
initialised by `setCurrentComponent`). -/
def inheritHooks (f : Nat) (hooks0 : List (Option Nat)) : Option VNode → List (Option Nat)
  | some (.comp f' _ _ _ hooks' _ _) => if f' = f then hooks' else hooks0
  | _ => hooks0

/-- `isComponent(oldVNode) ? oldVNode.__childVNode : oldVNode` (with
`?? null`). -/
def oldChildOf : Option VNode → Option VNode
  | some (.comp _ _ _ _ _ child _) => child
  | o => o

/-- `if (isComponent(oldVNode)) { unmountComponent(oldVNode); oldVNode =
oldVNode.__childVNode }`: the emitted cleanup events and the substituted old
vnode. -/
def unmountSubstitute : Option VNode → List REvent × Option VNode
  | some (.comp f' p' k' cs' hooks' child' d') =>
      ((unmountComponent (.comp f' p' k' cs' hooks' child' d')).map .cleanup, child')
  | o => ([], o)

mutual

/-- `reconciler.js` `reconcile` (two-phase version): compare `oldVNode` and
`newVNode` under `parentDom`, invoke component functions, build detached
subtrees and emit the render-phase trace.  Returns the updated heap, the
trace and the annotated new vnode.  The non-component cases of the JS
function's body are split into `reconcileHost`.  (The unused `index`
parameter of the JS function is omitted; `newVNode.__parentDom` bookkeeping
is modelled in the scheduler embedding.) -/
def reconcile (env : CompEnv) : Nat → Heap → Option Nat → Option VNode → Option VNode →
    Option (Heap × List REvent × Option VNode)
  | 0, _, _, _, _ => none
  | fuel + 1, h, parentDom, oldV, newV =>
    match newV with
    | some (.comp f p k cs hooks0 _ _) =>
        -- setCurrentComponent(newVNode); childVNode = newVNode.type(newVNode.props);
        -- clearCurrentComponent(); recurse on the expansion
        match reconcile env fuel h parentDom (oldChildOf oldV) (env f p) with
        | none => none
        | some (h1, tr, child') =>
            some (h1, tr, some (.comp f p k cs (inheritHooks f hooks0 oldV) child'
              (getComponentDom child')))
    | _ =>
        match reconcileHost env fuel h parentDom (unmountSubstitute oldV).2 newV with
        | none => none
        | some (h1, tr, v') => some (h1, (unmountSubstitute oldV).1 ++ tr, v')

/-- The insertion / deletion / type-mismatch / type-match cases of
`reconcile`, after the component substitution of the old vnode.  The new
vnode here is never a component (the component branch returned earlier). -/
def reconcileHost (env : CompEnv) : Nat → Heap → Option Nat → Option VNode → Option VNode →
    Option (Heap × List REvent × Option VNode)
  | 0, _, _, _, _ => none
  | _ + 1, h, _, none, none => some (h, [], none)
  | fuel + 1, h, parentDom, none, some n =>
      match mountVNode env fuel h n with
      | none => none
      | some (h1, n', d) =>
          some (h1, [.record (.placement d parentDom)], some n')
  | _ + 1, h, parentDom, some o, none =>
      some (h, (cleanupEffects (some o)).map .cleanup
              ++ [.record (.deletion o.domAnn parentDom)], none)
  | fuel + 1, h, parentDom, some o, some n =>
      if o.jsType ≠ n.jsType then
        match mountVNode env fuel h n with
        | none => none
        | some (h1, n', nd) =>
            some (h1, (cleanupEffects (some o)).map .cleanup
                    ++ [.record (.replace nd o.domAnn parentDom)], some n')
      else
        if o.jsType = Sum.inl "TEXT_ELEMENT" then
          match o, n with
          | .text ov od, .text nv _ =>
              if ov ≠ nv then
                some (h, [.record (.updText od ov nv)], some (.text nv od))
              else some (h, [], some (.text nv od))
          | o', n' => some (h, [], some (n'.withDom o'.domAnn))
          -- the fallthrough covers only a host element whose tag is the
          -- TEXT_ELEMENT sentinel string, which `createElement` never builds
        else
          match o, n with
          | .elem _ op _ ocs od, .elem nt np nk ncs _ =>
              let upd : List REvent :=
                if hasPropsChanged op np then [.record (.updProps od op np)] else []
              match reconcileChildren env fuel h od ocs ncs with
              | none => none
              | some (h1, trc, ncs') =>
                  some (h1, upd ++ trc, some (.elem nt np nk ncs' od))
          | o', n' => some (h, [], some (n'.withDom o'.domAnn))
          -- unreachable: same jsType, not the text sentinel, not components

/-- `reconciler.js` `reconcileChildren`: keyed when any old or new child
carries a key, else positional. -/
def reconcileChildren (env : CompEnv) : Nat → Heap → Option Nat → List VNode → List VNode →
    Option (Heap × List REvent × List VNode)
  | 0, _, _, _, _ => none
  | fuel + 1, h, pd, oldCs, newCs =>
    let hasKey := newCs.any (fun c => c.keyAnn.isSome) || oldCs.any (fun c => c.keyAnn.isSome)
    if hasKey then reconcileKeyedChildren env fuel h pd oldCs newCs
    else reconcileUnkeyedChildren env fuel h pd oldCs newCs

/-- `reconciler.js` `reconcileUnkeyedChildren`: pairwise by index up to the
longer list, missing entries as `null`. -/
def reconcileUnkeyedChildren (env : CompEnv) : Nat → Heap → Option Nat → List VNode → List VNode →
    Option (Heap × List REvent × List VNode)
  | 0, _, _, _, _ => none
  | _ + 1, h, _, [], [] => some (h, [], [])
  | fuel + 1, h, pd, o :: os, n :: ns =>
      match reconcile env fuel h pd (some o) (some n) with
      | some (h1, tr1, some n') =>
          match reconcileUnkeyedChildren env fuel h1 pd os ns with
          | some (h2, tr2, ns') => some (h2, tr1 ++ tr2, n' :: ns')
          | none => none
      | _ => none
  | fuel + 1, h, pd, o :: os, [] =>
      match reconcile env fuel h pd (some o) none with
      | some (h1, tr1, _) =>
          match reconcileUnkeyedChildren env fuel h1 pd os [] with
          | some (h2, tr2, ns') => some (h2, tr1 ++ tr2, ns')
          | none => none
      | none => none
  | fuel + 1, h, pd, [], n :: ns =>
      match reconcile env fuel h pd none (some n) with
      | some (h1, tr1, some n') =>
          match reconcileUnkeyedChildren env fuel h1 pd [] ns with
          | some (h2, tr2, ns') => some (h2, tr1 ++ tr2, n' :: ns')
          | none => none
      | _ => none

/-- `reconcileKeyedChildren` step 2: walk the new children in order, match
each against the keyed map (or pop the unkeyed queue) and reconcile the
pair.  Returns the remaining keyed map and unkeyed queue along with the
annotated new children. -/
def reconcileNewList (env : CompEnv) : Nat → Heap → Option Nat → List (PropVal × VNode) →
    List VNode → List VNode →
    Option (Heap × List REvent × List VNode × List (PropVal × VNode) × List VNode)
  | 0, _, _, _, _, _ => none
  | _ + 1, h, _, keyed, unkeyed, [] => some (h, [], [], keyed, unkeyed)
  | fuel + 1, h, pd, keyed, unkeyed, n :: ns =>
      let step : Option VNode × List (PropVal × VNode) × List VNode :=
        match n.keyAnn with
        | some k =>
            match assocGet keyed k with
            | some m => (some m, assocDelete keyed k, unkeyed)
            | none => (none, keyed, unkeyed)
        | none => (unkeyed.head?, keyed, unkeyed.tail)
      match reconcile env fuel h pd step.1 (some n) with
      | some (h1, tr1, some n') =>
          match reconcileNewList env fuel h1 pd step.2.1 step.2.2 ns with
          | some (h2, tr2, ns', keyed', unkeyed') =>
              some (h2, tr1 ++ tr2, n' :: ns', keyed', unkeyed')
          | none => none
      | _ => none

/-- `reconcileKeyedChildren` step 3: reconcile each unmatched old child
against `null` (deletion with cleanup). -/
def reconcileDeleteList (env : CompEnv) : Nat → Heap → Option Nat → List VNode →
    Option (Heap × List REvent)
  | 0, _, _, _ => none
  | _ + 1, h, _, [] => some (h, [])
  | fuel + 1, h, pd, c :: cs =>
      match reconcile env fuel h pd (some c) none with
      | some (h1, tr1, _) =>
          match reconcileDeleteList env fuel h1 pd cs with
          | some (h2, tr2) => some (h2, tr1 ++ tr2)
          | none => none
      | none => none

/-- `reconciler.js` `reconcileKeyedChildren` (two-phase version): match and
reconcile all children, delete the stale ones, then record one `REORDER`
carrying the resolved host references of the new children (skipping
unresolved ones) when that list is non-empty. -/
def reconcileKeyedChildren (env : CompEnv) : Nat → Heap → Option Nat → List VNode → List VNode →
    Option (Heap × List REvent × List VNode)
  | 0, _, _, _, _ => none
  | fuel + 1, h, pd, oldCs, newCs =>
      let kb := buildKeyed oldCs
      match reconcileNewList env fuel h pd kb.1 kb.2 newCs with
      | none => none
      | some (h1, tr1, ns', keyedRem, unkeyedRem) =>
        match reconcileDeleteList env fuel h1 pd (keyedRem.map Prod.snd) with
        | none => none
        | some (h2, tr2) =>
          match reconcileDeleteList env fuel h2 pd unkeyedRem with
          | none => none
          | some (h3, tr3) =>
              let desiredOrder := ns'.filterMap resolveDom
              let reorderTr : List REvent :=
                if desiredOrder.length > 0 then [.record (.reorder pd desiredOrder)] else []
              some (h3, tr1 ++ tr2 ++ tr3 ++ reorderTr, ns')

end

/-- `commitEffect`'s `REORDER` case: walk the desired order once; at each
position `i` call `insertBefore(dom, parent.childNodes[i] || null)` only when
the node currently at that position differs from the desired one.  Returns
the new heap and the log of performed `insertBefore` calls as
`(position, node)` pairs. -/
def commitReorderGo (parent : Nat) : Heap → Nat → List Nat → Heap × List (Nat × Nat)
  | h, _, [] => (h, [])
  | h, i, d :: ds =>
    let cur := childAt h parent i
    if some d = cur then commitReorderGo parent h (i + 1) ds
    else
      let h1 := insertBefore h parent d cur
      let r := commitReorderGo parent h1 (i + 1) ds
      (r.1, (i, d) :: r.2)

/-- The full `REORDER` commit walk, starting at position 0. -/
def commitReorder (h : Heap) (parent : Nat) (desired : List Nat) : Heap × List (Nat × Nat) :=
  commitReorderGo parent h 0 desired

/-- `reconciler.js` `commitEffect`: apply one staged mutation record to the
host tree.  Records whose parent reference is `null` are unreachable for
committed trees and leave the heap unchanged (the real DOM would throw). -/
def commitEffect (h : Heap) (r : MRecord) : Heap :=
  match r with
  | .placement dom (some pd) => appendChild h pd dom
  | .deletion (some dom) (some pd) => removeChild h pd dom
  | .replace newDom (some oldDom) (some pd) => replaceChild h pd newDom oldDom
  | .updText (some dom) _ newValue =>
      (match h.get? dom with
       | some (.text _) => h.set dom (.text newValue)
       | _ => h)
  | .updProps (some dom) _ newProps =>
      (match h.get? dom with
       | some (.elem t _ ks) => h.set dom (.elem t newProps ks)
       | _ => h)
  | .reorder (some pd) desired => (commitReorder h pd desired).1
  | _ => h

/-- `reconciler.js` `commitRoot`: drain the staged records and apply them in
order, in one uninterrupted pass. -/
def commitRoot (h : Heap) (pendingEffects : List MRecord) : Heap :=
  pendingEffects.foldl commitEffect h

/-!
## The hook runtime and scheduler (`hooks.js`)

The scheduler model tracks, for each component instance (a `Nat` id), its
single `useState` slot, plus the module-level `dirtyComponents` set,
`flushScheduled` flag and the number of queued `flushUpdates` microtasks.
Events record the calls a flush performs.
-/

namespace Hooks

/-- A `setState` argument: a raw value or an updater function. -/
inductive SAction (α : Type) where
  | raw (v : α)
  | upd (f : α → α)

/-- `hooks.js` `basicStateReducer`:
`typeof action === 'function' ? action(state) : action`. -/
def basicStateReducer {α : Type} (state : α) : SAction α → α
  | .raw v => v
  | .upd f => f state

/-- One `useState` hook slot: the resolved value and the pending queue. -/
structure Slot (α : Type) where
  state : α
  queue : List (SAction α)

/-- The scheduler's module-level state. -/
structure SchedState (α : Type) where
  slots : Nat → Slot α
  dirtyComponents : List Nat
  flushScheduled : Bool
  microtasks : Nat

/-- JS `Set.add`: append when absent (insertion order, no duplicates). -/
def dirtyAdd (l : List Nat) (i : Nat) : List Nat := if i ∈ l then l else l ++ [i]

/-- `hooks.js` `scheduleRerender`: mark the instance dirty; queue one
`flushUpdates` microtask unless one is already scheduled. -/
def scheduleRerender {α : Type} (i : Nat) (st : SchedState α) : SchedState α :=
  let st1 := { st with dirtyComponents := dirtyAdd st.dirtyComponents i }
  if st1.flushScheduled then st1
  else { st1 with flushScheduled := true, microtasks := st1.microtasks + 1 }

/-- The `setState` dispatch closure of instance `i`'s `useState` slot:
push the action onto the slot's queue and `scheduleRerender(component)`. -/
def setState {α : Type} (i : Nat) (a : SAction α) (st : SchedState α) : SchedState α :=
  let s := st.slots i
  scheduleRerender i
    { st with slots := Function.update st.slots i { s with queue := s.queue ++ [a] } }

/-- `useState`'s render-time queue drain: fold the pending actions over the
stored state in enqueue order, then clear the queue. -/
def drainSlot {α : Type} (s : Slot α) : Slot α :=
  { state := s.queue.foldl basicStateReducer s.state, queue := [] }

/-- The calls a flush performs, per `renderComponent`'s body. -/
inductive SEvent where
  | render (i : Nat)
  | reconcileCall (i : Nat)
  | commitCall
  deriving DecidableEq

/-- `hooks.js` `renderComponent`: set the hook context, invoke the component
function (whose `useState` call drains the slot and whose body may raise
further state updates, given by `raises`), clear the context, then
`reconcile` the result.  The body contains no `commitRoot()` call, so a
flush emits no `commitCall` event. -/
def renderComponent {α : Type} (raises : Nat → List (Nat × SAction α)) (i : Nat)
    (st : SchedState α) : SchedState α × List SEvent :=
  let st1 := { st with slots := Function.update st.slots i (drainSlot (st.slots i)) }
  let st2 := (raises i).foldl (fun acc ja => setState ja.1 ja.2 acc) st1
  (st2, [SEvent.render i, SEvent.reconcileCall i])

/-- `pending.forEach(renderComponent)`. -/
def renderList {α : Type} (raises : Nat → List (Nat × SAction α)) :
    List Nat → SchedState α → SchedState α × List SEvent
  | [], st => (st, [])
  | i :: rest, st =>
      let r1 := renderComponent raises i st
      let r2 := renderList raises rest r1.1
      (r2.1, r1.2 ++ r2.2)

/-- `hooks.js` `flushUpdates`: reset `flushScheduled`, snapshot and clear the
dirty set as one step, then re-render each snapshotted instance. -/
def flushUpdates {α : Type} (raises : Nat → List (Nat × SAction α)) (st : SchedState α) :
    SchedState α × List SEvent :=
  renderList raises st.dirtyComponents
    { st with flushScheduled := false, dirtyComponents := [] }

/-- The event loop consuming one queued microtask and running `flushUpdates`. -/
def runFlush {α : Type} (raises : Nat → List (Nat × SAction α)) (st : SchedState α) :
    SchedState α × List SEvent :=
  flushUpdates raises { st with microtasks := st.microtasks - 1 }

/-!
### The effect hook (`useEffect`) lifecycle
-/

/-- One `useEffect` hook slot: the stored dependency list (`none` models an
`undefined` deps argument) and the stored cleanup handle. -/
structure EffSlot (α : Type) where
  deps : Option (List α)
  cleanup : Option Nat

/-- `useEffect`'s dependency comparison (arguments: the new deps, the stored
deps): `!deps || !oldHook.deps || deps.length !== oldHook.deps.length ||
deps.some((dep, i) => !Object.is(dep, oldHook.deps[i]))`. -/
def depsChanged {α : Type} [DecidableEq α] : Option (List α) → Option (List α) → Bool
  | none, _ => true
  | some _, none => true
  | some ds, some os =>
      decide (ds.length ≠ os.length) ||
        (List.range ds.length).any (fun k => decide (ds.get? k ≠ os.get? k))

/-- `hasChanged`: first render always runs, later renders per `depsChanged`. -/
def hasChangedE {α : Type} [DecidableEq α] (oldHook : Option (EffSlot α))
    (deps : Option (List α)) : Bool :=
  match oldHook with
  | none => true
  | some old => depsChanged deps old.deps

/-- `hooks.js` `useEffect`, slot part: when the deps changed, store a new
slot keeping the old cleanup and queue a microtask (`true`); otherwise carry
the old slot forward unchanged (`false`). -/
def useEffectSlot {α : Type} [DecidableEq α] (deps : Option (List α))
    (oldHook : Option (EffSlot α)) : EffSlot α × Bool :=
  if hasChangedE oldHook deps then
    ({ deps := deps, cleanup := oldHook.bind (fun o => o.cleanup) }, true)
  else (oldHook.getD { deps := deps, cleanup := none }, false)

/-- Observable events of the effect lifecycle. -/
inductive EffEv where
  | bodyRun (renderIdx : Nat)
  | cleanupRun (handle : Nat)
  | renderDone (k : Nat)
  | unmountDone
  deriving DecidableEq

/-- The queued microtask of `useEffect`: run the previous cleanup if any,
run the effect body, store the returned cleanup (`ret`). -/
def runEffectTask {α : Type} (slot : EffSlot α) (renderIdx : Nat) (ret : Option Nat) :
    EffSlot α × List EffEv :=
  let evs := match slot.cleanup with
    | some c => [EffEv.cleanupRun c]
    | none => []
  ({ slot with cleanup := ret }, evs ++ [EffEv.bodyRun renderIdx])

/-- `unmountComponent` restricted to one effect slot: run its stored cleanup
handle, if present. -/
def unmountEff {α : Type} (slot : EffSlot α) : List EffEv :=
  match slot.cleanup with
  | some c => [EffEv.cleanupRun c]
  | none => []

/-- `count` re-renders of the owning instance starting at render index `k`,
each one calling `useEffect(callback, deps)` and then draining the microtask
queue (`rets r` is what render `r`'s effect body would return). -/
def rerenderLoop {α : Type} [DecidableEq α] (deps : Option (List α)) (rets : Nat → Option Nat) :
    EffSlot α → Nat → Nat → EffSlot α × List EffEv
  | slot, _, 0 => (slot, [])
  | slot, k, count + 1 =>
      let s1 := useEffectSlot deps (some slot)
      let s2 := if s1.2 then runEffectTask s1.1 k (rets k) else (s1.1, [])
      let s3 := rerenderLoop deps rets s2.1 (k + 1) count
      (s3.1, EffEv.renderDone k :: (s2.2 ++ s3.2))

/-- Full lifecycle scenario of one effect hook: mounting render (render 0),
microtask drain, `m` re-renders, then unmount. -/
def effectScenario {α : Type} [DecidableEq α] (deps : Option (List α))
    (rets : Nat → Option Nat) (m : Nat) : List EffEv :=
  let s1 := useEffectSlot deps (none : Option (EffSlot α))
  let s2 := if s1.2 then runEffectTask s1.1 0 (rets 0) else (s1.1, [])
  let s3 := rerenderLoop deps rets s2.1 1 m
  (EffEv.renderDone 0 :: (s2.2 ++ s3.2)) ++ unmountEff s3.1 ++ [EffEv.unmountDone]

/-!
### The hook-context machine (`currentComponent` / `hookIndex`)
-/

/-- One hook slot of any variant. -/
inductive HSlot (α : Type) where
  | stateSlot (state : α) (queue : List (SAction α))
  | effectSlot (deps : Option (List α)) (cleanup : Option Nat)
  | refSlot (current : α)

/-- The dynamic reads `oldHook.deps` / `oldHook.cleanup` (undefined on the
other variants). -/
def HSlot.depsOf {α : Type} : HSlot α → Option (List α)
  | .effectSlot d _ => d
  | _ => none

def HSlot.cleanupOf {α : Type} : HSlot α → Option Nat
  | .effectSlot _ c => c
  | _ => none

/-- The hook-runtime module state: the current component, the slot cursor,
every instance's hook array and `__expectedHookCount`, and the count of
queued effect microtasks. -/
structure HookM (α : Type) where
  currentComponent : Option Nat
  hookIndex : Nat
  hooks : Nat → List (HSlot α)
  expectedHookCount : Nat → Option Nat
  effectQueue : Nat

/-- JS array assignment `arr[idx] = v` for `idx ≤ arr.length`. -/
def listSetAt {β : Type} (l : List β) (i : Nat) (v : β) : List β :=
  if i < l.length then l.set i v else l ++ [v]

/-- `hooks.js` `setCurrentComponent`: set the current instance and reset the
slot cursor (the hook array exists for every id in this model). -/
def setCurrentComponent {α : Type} (i : Nat) (m : HookM α) : HookM α :=
  { m with currentComponent := some i, hookIndex := 0 }

/-- `hooks.js` `clearCurrentComponent`: on first render record
`__expectedHookCount = hookIndex`; on later renders fail with the hook-order
error when the cursor differs; then clear the current instance. -/
def clearCurrentComponent {α : Type} (m : HookM α) : Except String (HookM α) :=
  match m.currentComponent with
  | none => Except.error "TypeError"
  | some inst =>
    match m.expectedHookCount inst with
    | none =>
        Except.ok { m with
          expectedHookCount := Function.update m.expectedHookCount inst (some m.hookIndex),
          currentComponent := none }
    | some n =>
        if n ≠ m.hookIndex then
          Except.error ("Hook call order changed between renders. Expected " ++
            toString n ++ " hooks but got " ++ toString m.hookIndex ++
            ". Hooks must not be called conditionally.")
        else Except.ok { m with currentComponent := none }

/-- `hooks.js` `assertHookContext`: fail when no current instance is set. -/
def assertHookContext {α : Type} (hookName : String) (m : HookM α) : Except String Unit :=
  if m.currentComponent.isNone then
    Except.error (hookName ++ " must be called inside a function component (at the top level)")
  else Except.ok ()

/-- `hooks.js` `useState`: context guard, slot read/create, queue drain,
write-back.  Returns the resolved state (the dispatch closure is modelled by
`setState`). -/
def useStateM {α : Type} (initialValue : α) (m : HookM α) : Except String α × HookM α :=
  match assertHookContext "useState" m with
  | .error e => (.error e, m)
  | .ok _ =>
    match m.currentComponent with
    | none => (.error "unreachable", m)
    | some inst =>
      let idx := m.hookIndex
      let m1 := { m with hookIndex := idx + 1 }
      let hook := ((m.hooks inst).get? idx).getD (HSlot.stateSlot initialValue [])
      match hook with
      | .stateSlot s q =>
          let s' := q.foldl basicStateReducer s
          (.ok s', { m1 with
            hooks := Function.update m1.hooks inst
              (listSetAt (m1.hooks inst) idx (HSlot.stateSlot s' [])) })
      | _ => (.error "TypeError", m1)

/-- `hooks.js` `useReducer`: like `useState` but drains the queue through the
supplied reducer; supports the lazy `init` third argument. -/
def useReducerM {α : Type} (reducer : α → α → α) (initialArg : α) (init : Option (α → α))
    (m : HookM α) : Except String α × HookM α :=
  match assertHookContext "useReducer" m with
  | .error e => (.error e, m)
  | .ok _ =>
    match m.currentComponent with
    | none => (.error "unreachable", m)
    | some inst =>
      let idx := m.hookIndex
      let m1 := { m with hookIndex := idx + 1 }
      let init0 := match init with
        | some f => f initialArg
        | none => initialArg
      let hook := ((m.hooks inst).get? idx).getD (HSlot.stateSlot init0 [])
      match hook with
      | .stateSlot s q =>
          let s' := q.foldl (fun st a => match a with
            | .raw v => reducer st v
            | .upd f => reducer st (f st)) s
          (.ok s', { m1 with
            hooks := Function.update m1.hooks inst
              (listSetAt (m1.hooks inst) idx (HSlot.stateSlot s' [])) })
      | _ => (.error "TypeError", m1)

/-- `hooks.js` `useEffect`: context guard, dependency comparison, slot
write-back; queues one effect microtask when the deps changed. -/
def useEffectM {α : Type} [DecidableEq α] (deps : Option (List α)) (m : HookM α) :
    Except String Unit × HookM α :=
  match assertHookContext "useEffect" m with
  | .error e => (.error e, m)
  | .ok _ =>
    match m.currentComponent with
    | none => (.error "unreachable", m)
    | some inst =>
      let idx := m.hookIndex
      let m1 := { m with hookIndex := idx + 1 }
      let oldHook := (m.hooks inst).get? idx
      let hasChanged := match oldHook with
        | none => true
        | some old => depsChanged deps old.depsOf
      if hasChanged then
        (.ok (), { m1 with
          hooks := Function.update m1.hooks inst
            (listSetAt (m1.hooks inst) idx
              (HSlot.effectSlot deps (oldHook.bind HSlot.cleanupOf))),
          effectQueue := m1.effectQueue + 1 })
      else
        (.ok (), { m1 with
          hooks := Function.update m1.hooks inst
            (listSetAt (m1.hooks inst) idx
              (oldHook.getD (HSlot.effectSlot deps none))) })

/-- `hooks.js` `useRef`: context guard; create the boxed slot on first
render, return the stored slot afterwards. -/
def useRefM {α : Type} (initialValue : α) (m : HookM α) : Except String (HSlot α) × HookM α :=
  match assertHookContext "useRef" m with
  | .error e => (.error e, m)
  | .ok _ =>
    match m.currentComponent with
    | none => (.error "unreachable", m)
    | some inst =>
      let idx := m.hookIndex
      let m1 := { m with hookIndex := idx + 1 }
      let m2 := match (m.hooks inst).get? idx with
        | none => { m1 with
            hooks := Function.update m1.hooks inst
              (listSetAt (m1.hooks inst) idx (HSlot.refSlot initialValue)) }
        | some _ => m1
      (.ok (((m2.hooks inst).get? idx).getD (HSlot.refSlot initialValue)), m2)

/-- `k` successive hook calls inside one component-function invocation. -/
def runCalls {α : Type} (v : α) : Nat → HookM α → HookM α
  | 0, m => m
  | k + 1, m => runCalls v k (useRefM v m).2

end Hooks

/-!
## `root.js`: the per-container root registry
-/

namespace RootApi

/-- A root object: its identity (JS object identity, modelled by an
allocation id) and its last-committed tree (`currentVNode`; the tree itself
is abstracted to a handle). -/
structure RootObj where
  id : Nat
  currentVNode : Option Nat
  deriving DecidableEq

/-- The module-level `roots` WeakMap plus an allocation counter for object
identities. -/
structure Registry where
  entries : List (Nat × RootObj)
  nextId : Nat
  deriving DecidableEq

/-- Lookup in the registry's entry list (keys are unique: a container is
inserted only when absent). -/
def entriesGet (c : Nat) : List (Nat × RootObj) → Option RootObj
  | [] => none
  | e :: es => if e.1 = c then some e.2 else entriesGet c es

/-- `roots.get(container)`. -/
def regGet (r : Registry) (c : Nat) : Option RootObj :=
  entriesGet c r.entries

/-- `root.js` `createRoot`: return the registered root when the container is
known, else build a fresh root with an empty tree and register it. -/
def createRoot (c : Nat) (r : Registry) : RootObj × Registry :=
  match regGet r c with
  | some root => (root, r)
  | none =>
      let root : RootObj := { id := r.nextId, currentVNode := none }
      (root, { entries := r.entries ++ [(c, root)], nextId := r.nextId + 1 })

/-- `root.render(nextVNode)`: reconcile + commit (abstracted), then update
the shared root object's `currentVNode`. -/
def rootRender (c : Nat) (v : Nat) (r : Registry) : Registry :=
  { r with entries := r.entries.map (fun e =>
      if e.1 = c then (e.1, { e.2 with currentVNode := some v }) else e) }

/-- `WeakMap.delete`: drop the container's entry. -/
def entriesDelete (c : Nat) : List (Nat × RootObj) → List (Nat × RootObj)
  | [] => []
  | e :: es => if e.1 = c then entriesDelete c es else e :: entriesDelete c es

/-- `root.unmount()`: reconcile against `null` + commit (abstracted), set
`currentVNode = null`, then `roots.delete(container)` — the registry forgets
the object. -/
def rootUnmount (c : Nat) (r : Registry) : Registry :=
  { r with entries := entriesDelete c r.entries }

/-- Registry well-formedness: every registered root was allocated before the
current counter. -/
def regWF (r : Registry) : Prop :=
  ∀ e ∈ r.entries, e.2.id < r.nextId

end RootApi

end MiniReact

/-!
# Theorems
-/

namespace MiniReact

namespace Hooks

/-- C7.  Every hook call (state, reducer, effect, ref) made while no current
component instance is set fails synchronously with the hook-context error,
and the hook-runtime state is unchanged: no slot is created, no effect is
queued, nothing is scheduled. -/
theorem hook_outside_render_context_error {α : Type} [DecidableEq α]
    (m : HookM α) (hm : m.currentComponent = none)
    (v a : α) (red : α → α → α) (ini : Option (α → α)) (deps : Option (List α)) :
    useStateM v m =
      (.error "useState must be called inside a function component (at the top level)", m) ∧
    useReducerM red a ini m =
      (.error "useReducer must be called inside a function component (at the top level)", m) ∧
    useEffectM deps m =
      (.error "useEffect must be called inside a function component (at the top level)", m) ∧
    useRefM v m =
      (.error "useRef must be called inside a function component (at the top level)", m) := by
  refine ⟨?_, ?_, ?_, ?_⟩ <;>
    simp [useStateM, useReducerM, useEffectM, useRefM, assertHookContext, hm]

/-- Witness for C7 at a concrete machine with no current instance. -/
theorem hook_outside_render_context_error_witness :
    ({ currentComponent := none, hookIndex := 0, hooks := fun _ => [],
       expectedHookCount := fun _ => none, effectQueue := 0 } : HookM Int).currentComponent
        = none ∧
    useStateM (0 : Int)
        { currentComponent := none, hookIndex := 0, hooks := fun _ => [],
          expectedHookCount := fun _ => none, effectQueue := 0 } =
      (.error "useState must be called inside a function component (at the top level)",
       { currentComponent := none, hookIndex := 0, hooks := fun _ => [],
         expectedHookCount := fun _ => none, effectQueue := 0 }) :=
  ⟨rfl,
   (hook_outside_render_context_error
      { currentComponent := none, hookIndex := 0, hooks := fun _ => [],
        expectedHookCount := fun _ => none, effectQueue := 0 }
      rfl 0 0 (fun s _ => s) none none).1⟩

/-- One `useRef` call under a set hook context: always succeeds, advances
the cursor by one, and leaves the context and the recorded expected counts
unchanged. -/
theorem useRefM_step {α : Type} (v : α) (m : HookM α) (i : Nat)
    (h : m.currentComponent = some i) :
    ((useRefM v m).2).currentComponent = some i ∧
    ((useRefM v m).2).hookIndex = m.hookIndex + 1 ∧
    ((useRefM v m).2).expectedHookCount = m.expectedHookCount := by
  cases hg : (m.hooks i)[m.hookIndex]? <;>
    simp [useRefM, assertHookContext, h, hg]

/-- `k` hook calls under a set context advance the cursor by exactly `k`. -/
theorem runCalls_spec {α : Type} (v : α) (i : Nat) :
    ∀ (k : Nat) (m : HookM α), m.currentComponent = some i →
    (runCalls v k m).currentComponent = some i ∧
    (runCalls v k m).hookIndex = m.hookIndex + k ∧
    (runCalls v k m).expectedHookCount = m.expectedHookCount := by
  intro k
  induction k with
  | zero => intro m h; simp [runCalls, h]
  | succ n ih =>
    intro m h
    have hs := useRefM_step v m i h
    have ht := ih (useRefM v m).2 hs.1
    refine ⟨ht.1, ?_, ?_⟩
    · show (runCalls v n (useRefM v m).2).hookIndex = m.hookIndex + (n + 1)
      rw [ht.2.1, hs.2.1]; omega
    · show (runCalls v n (useRefM v m).2).expectedHookCount = m.expectedHookCount
      rw [ht.2.2, hs.2.2]

/-- A later render of an instance whose `__expectedHookCount` is recorded as
`k` succeeds at `clearCurrentComponent` iff it made exactly `k` hook calls. -/
theorem clearCurrent_second_render {α : Type} (v : α) (i k k' : Nat) (m' : HookM α)
    (h : m'.expectedHookCount i = some k) :
    (k' = k → ∃ m4, clearCurrentComponent (runCalls v k' (setCurrentComponent i m')) = .ok m4) ∧
    (k' ≠ k → ∃ msg, clearCurrentComponent (runCalls v k' (setCurrentComponent i m')) = .error msg) := by
  have hB := runCalls_spec v i k' (setCurrentComponent i m') rfl
  have hexpB : (runCalls v k' (setCurrentComponent i m')).expectedHookCount i = some k := by
    rw [hB.2.2]; exact h
  have hidxB : (runCalls v k' (setCurrentComponent i m')).hookIndex = k' := by
    rw [hB.2.1]; simp [setCurrentComponent]
  constructor
  · intro hk; subst hk
    refine ⟨{ runCalls v k' (setCurrentComponent i m') with currentComponent := none }, ?_⟩
    simp [clearCurrentComponent, hB.1, hexpB, hidxB]
  · intro hk
    refine ⟨"Hook call order changed between renders. Expected " ++ toString k ++
      " hooks but got " ++ toString k' ++ ". Hooks must not be called conditionally.", ?_⟩
    simp [clearCurrentComponent, hB.1, hexpB, hidxB, Ne.symm hk]

/-- C8.  The first render of an instance records its hook-call count as
`__expectedHookCount`, and a later render of the same instance fails with
the hook-order error at `clearCurrentComponent` exactly when its hook-call
count differs from the recorded one. -/
theorem hook_count_mismatch_order_error {α : Type} (v : α) (i k k' : Nat) (m : HookM α)
    (hexp : m.expectedHookCount i = none) :
    ∃ m2, clearCurrentComponent (runCalls v k (setCurrentComponent i m)) = .ok m2 ∧
      m2.expectedHookCount i = some k ∧
      (k' = k → ∃ m4, clearCurrentComponent (runCalls v k' (setCurrentComponent i m2)) = .ok m4) ∧
      (k' ≠ k → ∃ msg, clearCurrentComponent (runCalls v k' (setCurrentComponent i m2)) = .error msg) := by
  have hA := runCalls_spec v i k (setCurrentComponent i m) rfl
  have hexpA : (runCalls v k (setCurrentComponent i m)).expectedHookCount i = none := by
    rw [hA.2.2]; exact hexp
  have hidxA : (runCalls v k (setCurrentComponent i m)).hookIndex = k := by
    rw [hA.2.1]; simp [setCurrentComponent]
  refine ⟨{ runCalls v k (setCurrentComponent i m) with
            expectedHookCount := Function.update
              (runCalls v k (setCurrentComponent i m)).expectedHookCount i (some k),
            currentComponent := none }, ?_, ?_, ?_⟩
  · simp [clearCurrentComponent, hA.1, hexpA, hidxA]
  · simp [Function.update_same]
  · exact clearCurrent_second_render v i k k' _ (by simp [Function.update_same])

/-- Witness for C8: first render makes 2 hook calls, second render makes 3. -/
theorem hook_count_mismatch_order_error_witness :
    ({ currentComponent := none, hookIndex := 0, hooks := fun _ => [],
       expectedHookCount := fun _ => none, effectQueue := 0 } : HookM Int).expectedHookCount 0
        = none ∧
    ∃ m2, clearCurrentComponent (runCalls (0 : Int) 2 (setCurrentComponent 0
        { currentComponent := none, hookIndex := 0, hooks := fun _ => [],
          expectedHookCount := fun _ => none, effectQueue := 0 })) = .ok m2 ∧
      m2.expectedHookCount 0 = some 2 ∧
      (3 = 2 → ∃ m4, clearCurrentComponent (runCalls (0 : Int) 3 (setCurrentComponent 0 m2)) = .ok m4) ∧
      (3 ≠ 2 → ∃ msg, clearCurrentComponent (runCalls (0 : Int) 3 (setCurrentComponent 0 m2)) = .error msg) :=
  ⟨rfl, hook_count_mismatch_order_error 0 0 2 3 _ rfl⟩

/-- With an empty dependency list, every re-render keeps the slot unchanged
and queues no effect microtask. -/
theorem useEffectSlot_empty_noop {α : Type} [DecidableEq α] (s : EffSlot α)
    (hs : s.deps = some []) :
    useEffectSlot (some ([] : List α)) (some s) = (s, false) := by
  simp [useEffectSlot, hasChangedE, hs, depsChanged]

/-- Re-render loop with an empty dependency list: the slot is carried
forward unchanged and only render boundaries are observed. -/
theorem rerenderLoop_emptyDeps {α : Type} [DecidableEq α] (rets : Nat → Option Nat)
    (s : EffSlot α) (hs : s.deps = some []) :
    ∀ (count k : Nat), rerenderLoop (some ([] : List α)) rets s k count =
      (s, (List.range count).map (fun j => EffEv.renderDone (k + j))) := by
  intro count
  induction count with
  | zero => intro k; simp [rerenderLoop]
  | succ n ih =>
    intro k
    rw [rerenderLoop, useEffectSlot_empty_noop s hs]
    simp [ih (k + 1), List.range_succ_eq_map, List.map_map]
    intro a _
    omega

/-- C6.  For an effect registered with an empty dependency list `[]` whose
mount-time body returns a cleanup, across any number `m` of re-renders of
the owning instance the effect body runs exactly once (in the microtask
after the mounting render) and the returned cleanup runs exactly once (at
unmount), and neither runs at any intermediate re-render: the full event
trace is render 0, body, the `m` bare render boundaries, then the cleanup at
unmount. -/
theorem empty_deps_effect_once_cleanup_once {α : Type} [DecidableEq α]
    (rets : Nat → Option Nat) (c m : Nat) (hret : rets 0 = some c) :
    effectScenario (α := α) (some []) rets m =
      [EffEv.renderDone 0, EffEv.bodyRun 0] ++
        (List.range m).map (fun j => EffEv.renderDone (1 + j)) ++
        [EffEv.cleanupRun c, EffEv.unmountDone] ∧
    (effectScenario (α := α) (some []) rets m).countP
        (fun e => match e with | EffEv.bodyRun _ => true | _ => false) = 1 ∧
    (effectScenario (α := α) (some []) rets m).countP
        (fun e => match e with | EffEv.cleanupRun _ => true | _ => false) = 1 := by
  have htrace : effectScenario (α := α) (some []) rets m =
      [EffEv.renderDone 0, EffEv.bodyRun 0] ++
        (List.range m).map (fun j => EffEv.renderDone (1 + j)) ++
        [EffEv.cleanupRun c, EffEv.unmountDone] := by
    unfold effectScenario
    rw [show useEffectSlot (some ([] : List α)) none =
        ({ deps := some [], cleanup := none }, true) from by
      simp [useEffectSlot, hasChangedE]]
    simp only [runEffectTask]
    rw [rerenderLoop_emptyDeps rets _ (by simp) m 1]
    simp [unmountEff, hret]
  refine ⟨htrace, ?_, ?_⟩ <;>
  · rw [htrace]
    simp [List.countP_append, List.countP_map, List.countP_cons]

/-- A `setState` while a flush is already scheduled and the instance already
dirty only appends to the slot's queue. -/
theorem setState_armed {α : Type} (i : Nat) (a : SAction α) (st : SchedState α)
    (hd : st.dirtyComponents = [i]) (hf : st.flushScheduled = true) :
    setState i a st =
      { st with slots :=
          Function.update st.slots i ⟨(st.slots i).state, (st.slots i).queue ++ [a]⟩ } := by
  simp [setState, scheduleRerender, dirtyAdd, hd, hf]

/-- Folding further `setState` calls in the armed state accumulates the
actions in enqueue order and changes nothing else. -/
theorem setState_foldl_armed {α : Type} (i : Nat) :
    ∀ (acts : List (SAction α)) (st : SchedState α),
    st.dirtyComponents = [i] → st.flushScheduled = true →
    acts.foldl (fun s a => setState i a s) st =
      { st with slots :=
          Function.update st.slots i ⟨(st.slots i).state, (st.slots i).queue ++ acts⟩ } := by
  intro acts
  induction acts with
  | nil =>
    intro st _ _
    simp
  | cons a rest ih =>
    intro st hd hf
    rw [List.foldl_cons, setState_armed i a st hd hf,
      ih _ (by simpa using hd) (by simpa using hf)]
    simp [Function.update_same, Function.update_idem, List.append_assoc]

/-- The first `setState` of a turn arms the scheduler: instance marked
dirty, flag set, exactly one flush microtask queued. -/
theorem setState_from_idle {α : Type} (i : Nat) (a : SAction α) (st : SchedState α)
    (hd : st.dirtyComponents = []) (hf : st.flushScheduled = false) :
    setState i a st =
      { st with
          slots := Function.update st.slots i ⟨(st.slots i).state, (st.slots i).queue ++ [a]⟩,
          dirtyComponents := [i], flushScheduled := true,
          microtasks := st.microtasks + 1 } := by
  simp [setState, scheduleRerender, dirtyAdd, hd, hf]

/-- C2 (against the code as written).  From an idle scheduler, `1 + N`
synchronous state updates on instance `i` queue exactly one flush; that
flush re-renders `i` exactly once and the state the render observes is the
left-fold of the queued actions (via `basicStateReducer`) over the prior
state — but the flush performs zero commits: `renderComponent` reconciles
without ever calling `commitRoot`. -/
theorem flush_single_render_state_fold_zero_commits {α : Type} (i : Nat) (s0 : α)
    (st : SchedState α) (a : SAction α) (rest : List (SAction α))
    (hslot : st.slots i = { state := s0, queue := [] })
    (hd : st.dirtyComponents = []) (hf : st.flushScheduled = false)
    (hm : st.microtasks = 0) :
    ((a :: rest).foldl (fun s x => setState i x s) st).dirtyComponents = [i] ∧
    ((a :: rest).foldl (fun s x => setState i x s) st).flushScheduled = true ∧
    ((a :: rest).foldl (fun s x => setState i x s) st).microtasks = 1 ∧
    (((a :: rest).foldl (fun s x => setState i x s) st).slots i).queue = a :: rest ∧
    (runFlush (fun _ => []) ((a :: rest).foldl (fun s x => setState i x s) st)).2 =
      [SEvent.render i, SEvent.reconcileCall i] ∧
    (runFlush (fun _ => []) ((a :: rest).foldl (fun s x => setState i x s) st)).2.count
      (SEvent.render i) = 1 ∧
    (runFlush (fun _ => []) ((a :: rest).foldl (fun s x => setState i x s) st)).2.count
      SEvent.commitCall = 0 ∧
    ((runFlush (fun _ => []) ((a :: rest).foldl (fun s x => setState i x s) st)).1.slots i).state =
      (a :: rest).foldl basicStateReducer s0 ∧
    ((runFlush (fun _ => []) ((a :: rest).foldl (fun s x => setState i x s) st)).1.slots i).queue =
      [] ∧
    (runFlush (fun _ => []) ((a :: rest).foldl (fun s x => setState i x s) st)).1.microtasks = 0 := by
  have h1 : (a :: rest).foldl (fun s x => setState i x s) st =
      { st with
          slots := Function.update st.slots i ⟨s0, a :: rest⟩,
          dirtyComponents := [i], flushScheduled := true,
          microtasks := st.microtasks + 1 } := by
    rw [List.foldl_cons, setState_from_idle i a st hd hf,
      setState_foldl_armed i rest _ (by simp) (by simp)]
    simp [Function.update_same, Function.update_idem, hslot]
  rw [h1]
  refine ⟨rfl, rfl, by simpa using hm, by simp [Function.update_same], ?_⟩
  simp [runFlush, flushUpdates, renderList, renderComponent, drainSlot,
    Function.update_same, Function.update_idem, hm]

/-- Witness for C2's theorem: three `prev => prev + 1`-style updates. -/
theorem flush_single_render_state_fold_zero_commits_witness :
    ({ slots := fun _ => { state := (0 : Int), queue := [] }, dirtyComponents := [],
       flushScheduled := false, microtasks := 0 } : SchedState Int).slots 3 =
      { state := (0 : Int), queue := [] } ∧
    ((runFlush (fun _ => [])
        (([SAction.upd (fun p => p + 1), SAction.upd (fun p => p + 1),
           SAction.upd (fun p => p + 1)] : List (SAction Int)).foldl
          (fun s x => setState 3 x s)
          { slots := fun _ => { state := (0 : Int), queue := [] }, dirtyComponents := [],
            flushScheduled := false, microtasks := 0 })).1.slots 3).state =
      ([SAction.upd (fun p => p + 1), SAction.upd (fun p => p + 1),
        SAction.upd (fun p => p + 1)] : List (SAction Int)).foldl basicStateReducer 0 :=
  ⟨rfl,
   (flush_single_render_state_fold_zero_commits 3 0
      { slots := fun _ => { state := (0 : Int), queue := [] }, dirtyComponents := [],
        flushScheduled := false, microtasks := 0 }
      (SAction.upd (fun p => p + 1))
      [SAction.upd (fun p => p + 1), SAction.upd (fun p => p + 1)]
      rfl rfl rfl rfl).2.2.2.2.2.2.2.1⟩

theorem list_isEmpty_append {β : Type} (x y : List β) :
    (x ++ y).isEmpty = (x.isEmpty && y.isEmpty) := by
  cases x <;> simp

/-- One `setState`'s effect on the scheduler bookkeeping: mark dirty, arm
the flag, queue a microtask only when not already armed. -/
theorem setState_sched_fields {α : Type} (j : Nat) (a : SAction α) (st : SchedState α) :
    (setState j a st).dirtyComponents = dirtyAdd st.dirtyComponents j ∧
    (setState j a st).flushScheduled = true ∧
    (setState j a st).microtasks =
      st.microtasks + (if st.flushScheduled then 0 else 1) := by
  cases hfs : st.flushScheduled <;> simp [setState, scheduleRerender, hfs]

/-- Folding a batch of raised updates over the scheduler state. -/
theorem setState_foldl_sched_effect {α : Type} :
    ∀ (ps : List (Nat × SAction α)) (st : SchedState α),
    ((ps.foldl (fun acc ja => setState ja.1 ja.2 acc) st).dirtyComponents =
        (ps.map Prod.fst).foldl dirtyAdd st.dirtyComponents) ∧
    ((ps.foldl (fun acc ja => setState ja.1 ja.2 acc) st).flushScheduled =
        (st.flushScheduled || !ps.isEmpty)) ∧
    ((ps.foldl (fun acc ja => setState ja.1 ja.2 acc) st).microtasks =
        st.microtasks + (if st.flushScheduled then 0 else if ps.isEmpty then 0 else 1)) := by
  intro ps
  induction ps with
  | nil => intro st; simp
  | cons ja ps ih =>
    intro st
    have hstep := setState_sched_fields ja.1 ja.2 st
    have hrec := ih (setState ja.1 ja.2 st)
    refine ⟨?_, ?_, ?_⟩
    · show (ps.foldl (fun acc ja => setState ja.1 ja.2 acc)
          (setState ja.1 ja.2 st)).dirtyComponents = _
      rw [hrec.1, hstep.1]
      rfl
    · show (ps.foldl (fun acc ja => setState ja.1 ja.2 acc)
          (setState ja.1 ja.2 st)).flushScheduled = _
      rw [hrec.2.1, hstep.2.1]
      simp
    · show (ps.foldl (fun acc ja => setState ja.1 ja.2 acc)
          (setState ja.1 ja.2 st)).microtasks = _
      rw [hrec.2.2, hstep.2.1, hstep.2.2]
      cases hfs : st.flushScheduled <;> simp

/-- The scheduler-facing effect of a whole flush body: the events are the
renders of the snapshot in order; the dirty set, flag and microtask count
end up determined by the updates raised during the renders. -/
theorem renderList_effect {α : Type} (raises : Nat → List (Nat × SAction α)) :
    ∀ (pending : List Nat) (st : SchedState α),
    ((renderList raises pending st).2 =
        (pending.map (fun j => [SEvent.render j, SEvent.reconcileCall j])).flatten) ∧
    ((renderList raises pending st).1.dirtyComponents =
        (((pending.map raises).flatten).map Prod.fst).foldl dirtyAdd st.dirtyComponents) ∧
    ((renderList raises pending st).1.flushScheduled =
        (st.flushScheduled || !((pending.map raises).flatten).isEmpty)) ∧
    ((renderList raises pending st).1.microtasks =
        st.microtasks + (if st.flushScheduled then 0
          else if ((pending.map raises).flatten).isEmpty then 0 else 1)) := by
  intro pending
  induction pending with
  | nil => intro st; simp [renderList]
  | cons i rest ih =>
    intro st
    have hbatch := setState_foldl_sched_effect (α := α) (raises i)
      { st with slots := Function.update st.slots i (drainSlot (st.slots i)) }
    have hrec := ih ((renderComponent raises i st).1)
    have hrc : (renderComponent raises i st).1 =
        (raises i).foldl (fun acc ja => setState ja.1 ja.2 acc)
          { st with slots := Function.update st.slots i (drainSlot (st.slots i)) } := rfl
    refine ⟨?_, ?_, ?_, ?_⟩
    · show (renderComponent raises i st).2 ++ (renderList raises rest _).2 = _
      rw [hrec.1]
      rfl
    · show (renderList raises rest (renderComponent raises i st).1).1.dirtyComponents = _
      rw [hrec.2.1, hrc, hbatch.1]
      simp [List.foldl_append]
    · show (renderList raises rest (renderComponent raises i st).1).1.flushScheduled = _
      rw [hrec.2.2.1, hrc, hbatch.2.1]
      simp only [List.map_cons, List.flatten_cons]
      simp [list_isEmpty_append, Bool.or_assoc]
    · show (renderList raises rest (renderComponent raises i st).1).1.microtasks = _
      rw [hrec.2.2.2, hrc, hbatch.2.2, hbatch.2.1]
      simp only [List.map_cons, List.flatten_cons, list_isEmpty_append]
      rcases Bool.eq_false_or_eq_true st.flushScheduled with hfs | hfs <;>
        rcases Bool.eq_false_or_eq_true ((raises i).isEmpty) with hri | hri <;>
          rw [hfs, hri] <;> (try rw [Bool.true_and]) <;> (try simp)

/-- Counting render events in a flush's event list. -/
theorem render_events_count (i : Nat) :
    ∀ d : List Nat,
    ((d.map (fun j => [SEvent.render j, SEvent.reconcileCall j])).flatten).count
        (SEvent.render i) = d.count i := by
  intro d
  induction d with
  | nil => simp
  | cons j rest ih =>
    simp [List.count_append, List.count_cons, ih]

/-- `Set.add` keeps the dirty set duplicate-free. -/
theorem dirtyAdd_nodup (l : List Nat) (i : Nat) (h : l.Nodup) : (dirtyAdd l i).Nodup := by
  unfold dirtyAdd
  split
  · exact h
  · next hi => simp [List.nodup_append, h, hi]

theorem foldl_dirtyAdd_nodup : ∀ (xs : List Nat) (l : List Nat), l.Nodup →
    (xs.foldl dirtyAdd l).Nodup := by
  intro xs
  induction xs with
  | nil => intro l h; exact h
  | cons x xs ih => intro l h; exact ih _ (dirtyAdd_nodup l x h)

/-- C9.  `flushUpdates` reads and clears the dirty set as one step before
re-rendering: each snapshotted instance is re-rendered exactly once in the
flush, every state update raised while the flush re-renders lands in a fresh
(duplicate-free) dirty set, and a new flush microtask is queued exactly when
some update was raised — no update is lost and no instance re-renders twice
for the same marking. -/
theorem flush_dirty_set_atomic {α : Type} (raises : Nat → List (Nat × SAction α))
    (st : SchedState α) (hf : st.flushScheduled = true) (hm : 1 ≤ st.microtasks)
    (hnd : st.dirtyComponents.Nodup) :
    (runFlush raises st).2 =
      (st.dirtyComponents.map (fun j => [SEvent.render j, SEvent.reconcileCall j])).flatten ∧
    (∀ i ∈ st.dirtyComponents, (runFlush raises st).2.count (SEvent.render i) = 1) ∧
    (runFlush raises st).1.dirtyComponents =
      (((st.dirtyComponents.map raises).flatten).map Prod.fst).foldl dirtyAdd [] ∧
    (runFlush raises st).1.dirtyComponents.Nodup ∧
    (runFlush raises st).1.flushScheduled =
      !((st.dirtyComponents.map raises).flatten).isEmpty ∧
    (runFlush raises st).1.microtasks =
      (st.microtasks - 1) +
        (if ((st.dirtyComponents.map raises).flatten).isEmpty then 0 else 1) := by
  have heff := renderList_effect raises st.dirtyComponents
    { st with microtasks := st.microtasks - 1,
              flushScheduled := false,
              dirtyComponents := [] }
  have hrun : runFlush raises st = renderList raises st.dirtyComponents
      { st with microtasks := st.microtasks - 1,
                flushScheduled := false,
                dirtyComponents := [] } := rfl
  rw [hrun]
  refine ⟨heff.1, ?_, ?_, ?_, ?_, ?_⟩
  · intro i hi
    rw [heff.1, render_events_count]
    exact List.count_eq_one_of_mem hnd hi
  · rw [heff.2.1]
  · rw [heff.2.1]
    exact foldl_dirtyAdd_nodup _ _ List.nodup_nil
  · rw [heff.2.2.1]
    simp
  · rw [heff.2.2.2]
    simp

/-- Witness for C9: a flush over dirty instances 0 and 1 where instance 0's
render raises one update for instance 5. -/
theorem flush_dirty_set_atomic_witness :
    ({ slots := fun _ => { state := (0 : Int), queue := [] }, dirtyComponents := [0, 1],
       flushScheduled := true, microtasks := 1 } : SchedState Int).dirtyComponents.Nodup ∧
    (runFlush (fun i => if i = 0 then [(5, SAction.raw (1 : Int))] else [])
        { slots := fun _ => { state := (0 : Int), queue := [] }, dirtyComponents := [0, 1],
          flushScheduled := true, microtasks := 1 }).1.dirtyComponents =
      ((([0, 1].map (fun i => if i = 0 then [(5, SAction.raw (1 : Int))] else [])).flatten).map
        Prod.fst).foldl dirtyAdd [] :=
  ⟨by decide,
   (flush_dirty_set_atomic (fun i => if i = 0 then [(5, SAction.raw (1 : Int))] else [])
      { slots := fun _ => { state := (0 : Int), queue := [] }, dirtyComponents := [0, 1],
        flushScheduled := true, microtasks := 1 }
      rfl (by decide) (by decide)).2.2.1⟩

/-- Witness for C6: two re-renders, the mount effect returns cleanup 7. -/
theorem empty_deps_effect_once_cleanup_once_witness :
    (fun _ : Nat => (some 7 : Option Nat)) 0 = some 7 ∧
    (effectScenario (α := Int) (some []) (fun _ => some 7) 2).countP
        (fun e => match e with | EffEv.bodyRun _ => true | _ => false) = 1 ∧
    (effectScenario (α := Int) (some []) (fun _ => some 7) 2).countP
        (fun e => match e with | EffEv.cleanupRun _ => true | _ => false) = 1 :=
  ⟨rfl, (empty_deps_effect_once_cleanup_once (α := Int) (fun _ => some 7) 7 2 rfl).2⟩

end Hooks

namespace RootApi

theorem entriesGet_append_absent (c : Nat) (root : RootObj) :
    ∀ es, entriesGet c es = none → entriesGet c (es ++ [(c, root)]) = some root := by
  intro es
  induction es with
  | nil => intro _; simp [entriesGet]
  | cons e es ih =>
    intro h
    by_cases hc : e.1 = c
    · simp [entriesGet, hc] at h
    · simp [entriesGet, hc] at h ⊢
      exact ih h

theorem entriesGet_render (c v : Nat) :
    ∀ es, entriesGet c (es.map (fun e =>
        if e.1 = c then (e.1, { e.2 with currentVNode := some v }) else e)) =
      (entriesGet c es).map (fun ro => { ro with currentVNode := some v }) := by
  intro es
  induction es with
  | nil => simp [entriesGet]
  | cons e es ih =>
    by_cases hc : e.1 = c
    · simp [entriesGet, hc]
    · simp [entriesGet, hc, ih]

theorem entriesGet_delete (c : Nat) :
    ∀ es : List (Nat × RootObj), entriesGet c (entriesDelete c es) = none := by
  intro es
  induction es with
  | nil => simp [entriesDelete, entriesGet]
  | cons e es ih =>
    by_cases hc : e.1 = c
    · simp [entriesDelete, hc, ih]
    · simp [entriesDelete, entriesGet, hc, ih]

theorem entriesGet_mem (c : Nat) :
    ∀ es (ro : RootObj), entriesGet c es = some ro → ∃ e, e ∈ es ∧ e.2 = ro := by
  intro es
  induction es with
  | nil => intro ro h; simp [entriesGet] at h
  | cons e es ih =>
    intro ro h
    by_cases hc : e.1 = c
    · simp [entriesGet, hc] at h
      exact ⟨e, by simp, h⟩
    · simp [entriesGet, hc] at h
      obtain ⟨e', he', hro⟩ := ih ro h
      exact ⟨e', by simp [he'], hro⟩

/-- `createRoot` registers the root it returns. -/
theorem regGet_createRoot (c : Nat) (r : Registry) :
    regGet (createRoot c r).2 c = some (createRoot c r).1 := by
  unfold createRoot
  cases hg : regGet r c with
  | some root => simpa [regGet] using hg
  | none =>
    simp only [regGet] at hg ⊢
    exact entriesGet_append_absent c _ _ hg

/-- The returned root is always already-allocated: its id is below the
counter of the registry `createRoot` returns. -/
theorem createRoot_id_lt (c : Nat) (r : Registry) (hwf : regWF r) :
    (createRoot c r).1.id < (createRoot c r).2.nextId := by
  unfold createRoot
  cases hg : regGet r c with
  | some root =>
    obtain ⟨e, he, hro⟩ := entriesGet_mem c r.entries root hg
    simpa [hro] using hwf e he
  | none => simp

/-- `createRoot` on a registered container returns the stored root and
leaves the registry unchanged. -/
theorem createRoot_found (c : Nat) (r' : Registry) (ro : RootObj)
    (h : regGet r' c = some ro) : createRoot c r' = (ro, r') := by
  unfold createRoot
  rw [h]

/-- `createRoot` on an unregistered container allocates a fresh root with an
empty tree. -/
theorem createRoot_fresh (c : Nat) (r' : Registry) (h : regGet r' c = none) :
    createRoot c r' = ({ id := r'.nextId, currentVNode := none },
      { entries := r'.entries ++ [(c, { id := r'.nextId, currentVNode := none })],
        nextId := r'.nextId + 1 }) := by
  unfold createRoot
  rw [h]

/-- C10.  `createRoot` is idempotent per container: a second call returns
the identical registered root object (its last-committed tree preserved, not
reset) and leaves the registry unchanged; after the root's `unmount` removes
the container from the registry, `createRoot` builds a fresh root (a new
object with an empty tree). -/
theorem createRoot_idempotent_per_container (c v : Nat) (r : Registry) (hwf : regWF r) :
    createRoot c ((createRoot c r).2) = createRoot c r ∧
    ((createRoot c (rootRender c v (createRoot c r).2)).1.currentVNode = some v ∧
     (createRoot c (rootRender c v (createRoot c r).2)).1.id = (createRoot c r).1.id ∧
     (createRoot c (rootRender c v (createRoot c r).2)).2 = rootRender c v (createRoot c r).2) ∧
    (regGet (rootUnmount c (rootRender c v (createRoot c r).2)) c = none ∧
     (createRoot c (rootUnmount c (rootRender c v (createRoot c r).2))).1.currentVNode = none ∧
     (createRoot c (rootUnmount c (rootRender c v (createRoot c r).2))).1.id ≠
       (createRoot c r).1.id) := by
  have hreg := regGet_createRoot c r
  have hrender : regGet (rootRender c v (createRoot c r).2) c =
      some { (createRoot c r).1 with currentVNode := some v } := by
    have hent : (rootRender c v (createRoot c r).2).entries =
        ((createRoot c r).2).entries.map (fun e =>
          if e.1 = c then (e.1, { e.2 with currentVNode := some v }) else e) := rfl
    show entriesGet c _ = _
    rw [hent, entriesGet_render]
    simp only [regGet] at hreg
    rw [hreg]
    rfl
  have hunmount : regGet (rootUnmount c (rootRender c v (createRoot c r).2)) c = none := by
    show entriesGet c _ = _
    exact entriesGet_delete c _
  refine ⟨?_, ⟨?_, ?_, ?_⟩, hunmount, ?_, ?_⟩
  · exact createRoot_found c _ _ hreg
  · rw [createRoot_found c _ _ hrender]
  · rw [createRoot_found c _ _ hrender]
  · rw [createRoot_found c _ _ hrender]
  · rw [createRoot_fresh c _ hunmount]
  · rw [createRoot_fresh c _ hunmount]
    have hlt := createRoot_id_lt c r hwf
    have hnext : (rootUnmount c (rootRender c v (createRoot c r).2)).nextId =
        (createRoot c r).2.nextId := rfl
    simp only [hnext]
    omega

/-- Witness for C10 at a concrete registry. -/
theorem createRoot_idempotent_per_container_witness :
    regWF { entries := [(9, { id := 0, currentVNode := some 5 })], nextId := 1 } ∧
    createRoot 3 ((createRoot 3
        { entries := [(9, { id := 0, currentVNode := some 5 })], nextId := 1 }).2) =
      createRoot 3 { entries := [(9, { id := 0, currentVNode := some 5 })], nextId := 1 } :=
  ⟨fun e he => by
      simp at he
      simp [he],
   (createRoot_idempotent_per_container 3 7
      { entries := [(9, { id := 0, currentVNode := some 5 })], nextId := 1 }
      (fun e he => by
        simp at he
        simp [he])).1⟩

end RootApi

/-!
### Reconciler theorems
-/

/-- An unchanged prop set (no prop added, removed, or changed in value)
makes the reconciler's prop diff report no change. -/
theorem propsUnchanged_hasPropsChanged_false (op np : Props) (h : PropsUnchanged op np) :
    hasPropsChanged op np = false := by
  unfold hasPropsChanged
  rw [Bool.or_eq_false_iff]
  constructor
  · rw [List.any_eq_false]
    intro k hk
    simp [h.1 k hk]
  · rw [List.any_eq_false]
    intro k hk
    rcases Option.isSome_iff_exists.mp (h.2 k hk) with ⟨v, hv⟩
    simp [hv]

/-- C4.  For host elements with identical tag and an unchanged prop set
(no prop added, removed, or changed in value), reconciling the pair appends
zero `Update` records for that node: the whole trace of the call is exactly
the trace of the child-list reconciliation. -/
theorem reconcile_unchanged_props_no_update (env : CompEnv) (fuel : Nat) (h : Heap)
    (pd : Option Nat) (t : String) (op np : Props) (ok nk : Option PropVal)
    (ocs ncs : List VNode) (od nd : Option Nat)
    (ht : t ≠ "TEXT_ELEMENT") (hp : PropsUnchanged op np)
    (h' : Heap) (tr : List REvent) (v' : Option VNode)
    (hres : reconcile env (fuel + 2) h pd (some (.elem t op ok ocs od))
      (some (.elem t np nk ncs nd)) = some (h', tr, v')) :
    ∃ ncs', reconcileChildren env fuel h od ocs ncs = some (h', tr, ncs') ∧
      v' = some (.elem t np nk ncs' od) := by
  cases hrc : reconcileChildren env fuel h od ocs ncs with
  | none =>
    simp [reconcile, reconcileHost, unmountSubstitute, VNode.jsType, ht,
      propsUnchanged_hasPropsChanged_false op np hp, hrc] at hres
  | some r =>
    obtain ⟨h1, trc, ncs'⟩ := r
    simp [reconcile, reconcileHost, unmountSubstitute, VNode.jsType, ht,
      propsUnchanged_hasPropsChanged_false op np hp, hrc] at hres
    obtain ⟨he1, he2, he3⟩ := hres
    subst he1
    subst he2
    exact ⟨ncs', rfl, he3.symm⟩

/-- Witness for C4: reconciling `<div id="a">` (mounted at dom 0) against a
fresh `<div id="a">` yields exactly the child-reconciliation trace (empty
here) and no `Update` record. -/
theorem reconcile_unchanged_props_no_update_witness :
    ∃ ncs', reconcileChildren (fun _ _ => none) 16 ([] : Heap) (some 0) [] [] =
        some ([], ([] : List REvent), ncs') ∧
      (some (VNode.elem "div" [("id", PropVal.str "a")] none [] (some 0)) : Option VNode) =
        some (.elem "div" [("id", PropVal.str "a")] none ncs' (some 0)) :=
  reconcile_unchanged_props_no_update (fun _ _ => none) 16 [] none "div"
    [("id", PropVal.str "a")] [("id", PropVal.str "a")] none none [] [] (some 0) none
    (by decide) (by constructor <;> (intro k hk; simp at hk; simp [hk])) [] []
    (some (.elem "div" [("id", PropVal.str "a")] none [] (some 0))) rfl

/-- Cleanup events contribute nothing to the pending mutation queue. -/
theorem recordsOf_cleanup_append (l : List Nat) (tr : List REvent) :
    recordsOf (l.map .cleanup ++ tr) = recordsOf tr := by
  simp [recordsOf, List.filterMap_append, List.filterMap_map, Function.comp]

/-- C3.  When the old and the new vnode are both present, NEITHER is a
component, and their types differ, reconciling mounts the new subtree
detached, emits first the unmount cleanups of every component inside the old
subtree and then exactly one `Replace` record — so the whole pending-queue
contribution is that single `Replace` (in particular zero `Update` records).
The old-is-a-component case of the original claim fails: see the
counterexample, where the code unmounts the old component and then diffs its
rendered output in place, emitting an `Update` and no `Replace`. -/
theorem reconcile_type_mismatch_single_replace (env : CompEnv) (fuel : Nat) (h : Heap)
    (pd : Option Nat) (o n : VNode)
    (ho : o.isComp = false) (hn : n.isComp = false) (hty : o.jsType ≠ n.jsType)
    (h' : Heap) (tr : List REvent) (v' : Option VNode)
    (hres : reconcile env (fuel + 2) h pd (some o) (some n) = some (h', tr, v')) :
    ∃ n' nd, mountVNode env fuel h n = some (h', n', nd) ∧
      tr = (cleanupEffects (some o)).map .cleanup ++ [.record (.replace nd o.domAnn pd)] ∧
      recordsOf tr = [.replace nd o.domAnn pd] ∧
      v' = some n' := by
  cases o with
  | comp f p k cs hs ch d => simp [VNode.isComp] at ho
  | text sv sd =>
    cases n with
    | comp f p k cs hs ch d => simp [VNode.isComp] at hn
    | text nv nd0 => exact absurd rfl hty
    | elem nt np nk ncs nd0 =>
      cases hm : mountVNode env fuel h (.elem nt np nk ncs nd0) with
      | none =>
        simp [reconcile, reconcileHost, unmountSubstitute, hty, hm] at hres
      | some r =>
        obtain ⟨h1, n', ndd⟩ := r
        simp [reconcile, reconcileHost, unmountSubstitute, hty, hm] at hres
        obtain ⟨he1, he2, he3⟩ := hres
        subst he1
        refine ⟨n', ndd, rfl, he2.symm, ?_, he3.symm⟩
        rw [← he2, recordsOf_cleanup_append]
        rfl
  | elem ot op ok ocs od =>
    cases n with
    | comp f p k cs hs ch d => simp [VNode.isComp] at hn
    | text nv nd0 =>
      cases hm : mountVNode env fuel h (.text nv nd0) with
      | none =>
        simp [reconcile, reconcileHost, unmountSubstitute, hty, hm] at hres
      | some r =>
        obtain ⟨h1, n', ndd⟩ := r
        simp [reconcile, reconcileHost, unmountSubstitute, hty, hm] at hres
        obtain ⟨he1, he2, he3⟩ := hres
        subst he1
        refine ⟨n', ndd, rfl, he2.symm, ?_, he3.symm⟩
        rw [← he2, recordsOf_cleanup_append]
        rfl
    | elem nt np nk ncs nd0 =>
      cases hm : mountVNode env fuel h (.elem nt np nk ncs nd0) with
      | none =>
        simp [reconcile, reconcileHost, unmountSubstitute, hty, hm] at hres
      | some r =>
        obtain ⟨h1, n', ndd⟩ := r
        simp [reconcile, reconcileHost, unmountSubstitute, hty, hm] at hres
        obtain ⟨he1, he2, he3⟩ := hres
        subst he1
        refine ⟨n', ndd, rfl, he2.symm, ?_, he3.symm⟩
        rw [← he2, recordsOf_cleanup_append]
        rfl

/-- Counterexample to C3 as stated: the old vnode is a component whose
rendered output is a `div`, the new vnode is a host `div` — the pair differs
in kind, yet reconciling emits an `Update` record and NO `Replace`, because
the code first substitutes the component's `__childVNode` for the old vnode
and then diffs that against the new `div` in place. -/
theorem reconcile_comp_old_type_change_no_replace :
    (reconcile (fun _ _ => none) 20 [] none
      (some (.comp 0 [] none [] [some 42]
        (some (.elem "div" [("id", PropVal.str "a")] none [] (some 0))) (some 0)))
      (some (.elem "div" [("id", PropVal.str "b")] none [] none))).map
      (fun r => (r.2.1, (recordsOf r.2.1).filter isReplaceRec)) =
    some ([.cleanup 42,
           .record (.updProps (some 0) [("id", PropVal.str "a")] [("id", PropVal.str "b")])],
          []) := rfl

/-- Witness for C3: a text node replaced by a `div` yields one `Replace`
record and nothing else in the queue. -/
theorem reconcile_type_mismatch_single_replace_witness :
    ∃ n' nd, mountVNode (fun _ _ => none) 16 ([] : Heap) (.elem "div" [] none [] none) =
        some ([DomData.elem "div" [] []], n', nd) ∧
      (cleanupEffects (some (.text "x" (some 5)))).map REvent.cleanup
          ++ [REvent.record (.replace 0 (some 5) none)] =
        (cleanupEffects (some (.text "x" (some 5)))).map .cleanup
          ++ [.record (.replace nd (VNode.text "x" (some 5)).domAnn none)] ∧
      recordsOf ((cleanupEffects (some (.text "x" (some 5)))).map REvent.cleanup
          ++ [REvent.record (.replace 0 (some 5) none)]) =
        [.replace nd (VNode.text "x" (some 5)).domAnn none] ∧
      (some (VNode.elem "div" [] none [] (some 0)) : Option VNode) = some n' :=
  reconcile_type_mismatch_single_replace (fun _ _ => none) 16 [] none
    (.text "x" (some 5)) (.elem "div" [] none [] none) rfl rfl (by decide)
    [DomData.elem "div" [] []]
    ((cleanupEffects (some (.text "x" (some 5)))).map REvent.cleanup
      ++ [REvent.record (.replace 0 (some 5) none)])
    (some (.elem "div" [] none [] (some 0))) rfl

/-- The `REORDER` commit walk performs no `insertBefore` call exactly when
every visited live position already holds the desired node, and in that case
it leaves the host tree untouched. -/
theorem commitReorderGo_spec (parent : Nat) (ds : List Nat) :
    ∀ (h : Heap) (i : Nat),
      ((commitReorderGo parent h i ds).2 = [] ↔
        ∀ j, j < ds.length → childAt h parent (i + j) = ds.get? j) ∧
      ((commitReorderGo parent h i ds).2 = [] → (commitReorderGo parent h i ds).1 = h) := by
  induction ds with
  | nil =>
    intro h i
    refine ⟨?_, ?_⟩
    · simp [commitReorderGo]
    · intro _
      simp [commitReorderGo]
  | cons d ds ih =>
    intro h i
    by_cases hcur : some d = childAt h parent i
    · have hgo : commitReorderGo parent h i (d :: ds) = commitReorderGo parent h (i + 1) ds := by
        simp [commitReorderGo, hcur]
      rw [hgo]
      refine ⟨?_, (ih h (i + 1)).2⟩
      rw [(ih h (i + 1)).1]
      constructor
      · intro hall j hj
        cases j with
        | zero => simpa using hcur.symm
        | succ j' =>
          have hx := hall j' (by simp only [List.length_cons] at hj; omega)
          rw [show i + (j' + 1) = i + 1 + j' by omega]
          simpa using hx
      · intro hall j hj
        have hx := hall (j + 1) (by simp only [List.length_cons]; omega)
        rw [show i + 1 + j = i + (j + 1) by omega]
        simpa using hx
    · have h2 : (commitReorderGo parent h i (d :: ds)).2 =
          (i, d) :: (commitReorderGo parent
            (insertBefore h parent d (childAt h parent i)) (i + 1) ds).2 := by
        simp [commitReorderGo, hcur]
      refine ⟨?_, ?_⟩
      · rw [h2]
        constructor
        · intro habs
          exact absurd habs (by simp)
        · intro hall
          have h0 := hall 0 (by simp only [List.length_cons]; omega)
          simp at h0
          exact (hcur h0.symm).elim
      · intro habs
        rw [h2] at habs
        exact absurd habs (by simp)

/-- C5.  Keyed child reconciliation emits, after the per-child traces and the
stale deletions, one `Reorder` record carrying the new list's resolved host
references in new-list order (unresolved entries skipped) — but ONLY when
that resolved list is non-empty; when it is empty (e.g. the new list is
empty) no `Reorder` record is appended at all, against the claim's
unconditional "exactly one".  And the commit walk of such a record mutates
nothing exactly when every live position already holds the desired node. -/
theorem keyed_reconcile_reorder_record_and_commit (env : CompEnv) (fuel : Nat) (h : Heap)
    (pd : Option Nat) (oldCs newCs : List VNode) (h3 : Heap) (tr : List REvent)
    (ns' : List VNode)
    (hres : reconcileKeyedChildren env (fuel + 1) h pd oldCs newCs = some (h3, tr, ns')) :
    (∃ h1 tr1 keyedRem unkeyedRem h2 tr2 tr3,
      reconcileNewList env fuel h pd (buildKeyed oldCs).1 (buildKeyed oldCs).2 newCs =
          some (h1, tr1, ns', keyedRem, unkeyedRem) ∧
      reconcileDeleteList env fuel h1 pd (keyedRem.map Prod.snd) = some (h2, tr2) ∧
      reconcileDeleteList env fuel h2 pd unkeyedRem = some (h3, tr3) ∧
      tr = tr1 ++ tr2 ++ tr3 ++
        (if 0 < (ns'.filterMap resolveDom).length
         then [.record (.reorder pd (ns'.filterMap resolveDom))] else [])) ∧
    (∀ (hp : Heap) (p : Nat),
      commitReorder hp p (ns'.filterMap resolveDom) = (hp, []) ↔
        ∀ j, j < (ns'.filterMap resolveDom).length →
          childAt hp p j = (ns'.filterMap resolveDom).get? j) := by
  constructor
  · cases hn : reconcileNewList env fuel h pd (buildKeyed oldCs).1 (buildKeyed oldCs).2 newCs with
    | none => simp [reconcileKeyedChildren, hn] at hres
    | some r1 =>
      obtain ⟨h1, tr1, ns1, keyedRem, unkeyedRem⟩ := r1
      cases hd1 : reconcileDeleteList env fuel h1 pd (keyedRem.map Prod.snd) with
      | none => simp [reconcileKeyedChildren, hn, hd1] at hres
      | some r2 =>
        obtain ⟨h2, tr2⟩ := r2
        cases hd2 : reconcileDeleteList env fuel h2 pd unkeyedRem with
        | none => simp [reconcileKeyedChildren, hn, hd1, hd2] at hres
        | some r3 =>
          obtain ⟨h3x, tr3⟩ := r3
          simp only [reconcileKeyedChildren, hn, hd1, hd2, Option.some.injEq,
            Prod.mk.injEq] at hres
          obtain ⟨hh, ht, hv⟩ := hres
          subst hh
          subst hv
          exact ⟨h1, tr1, keyedRem, unkeyedRem, h2, tr2, tr3, rfl, hd1, hd2, ht.symm⟩
  · intro hp p
    constructor
    · intro hcomm j hj
      have hl : (commitReorderGo p hp 0 (ns'.filterMap resolveDom)).2 = [] := by
        have hsnd := congrArg Prod.snd hcomm
        simpa [commitReorder] using hsnd
      have hx := ((commitReorderGo_spec p (ns'.filterMap resolveDom) hp 0).1.mp hl) j hj
      simpa using hx
    · intro hall
      have hl : (commitReorderGo p hp 0 (ns'.filterMap resolveDom)).2 = [] :=
        (commitReorderGo_spec p (ns'.filterMap resolveDom) hp 0).1.mpr
          (by intro j hj; simpa using hall j hj)
      have hh := (commitReorderGo_spec p (ns'.filterMap resolveDom) hp 0).2 hl
      show commitReorderGo p hp 0 (ns'.filterMap resolveDom) = (hp, [])
      rw [Prod.ext_iff]
      exact ⟨hh, hl⟩

/-- Counterexample to C5 as stated: a keyed old list reconciled against an
EMPTY new list takes the keyed path (the old child carries a key), deletes
the stale child, and appends NO `Reorder` record at all — the code pushes the
record only when the resolved desired order is non-empty. -/
theorem keyed_empty_new_no_reorder :
    (reconcileChildren (fun _ _ => none) 20 ([] : Heap) none
      [.elem "li" [] (some (PropVal.str "a")) [] (some 1)] []).map
      (fun r => ((recordsOf r.2.1).filter isReorderRec, recordsOf r.2.1)) =
    some ([], [.deletion (some 1) none]) := by
  simp [reconcileChildren, reconcileKeyedChildren, reconcileNewList, reconcileDeleteList,
    reconcile, reconcileHost, unmountSubstitute, cleanupEffects, recordsOf, isReorderRec,
    buildKeyed, VNode.keyAnn, VNode.domAnn, assocSet]

/-- Witness for C5: swapping two keyed `li` siblings emits exactly the single
`Reorder` record carrying `[2, 1]`, and committing it on a heap whose live
order already is `[2, 1]` performs no `insertBefore` call. -/
theorem keyed_reconcile_reorder_record_and_commit_witness :
    (∃ h1 tr1 keyedRem unkeyedRem h2 tr2 tr3,
      reconcileNewList (fun _ _ => none) 19 ([] : Heap) (some 0)
          (buildKeyed [VNode.elem "li" [] (some (PropVal.str "a")) [] (some 1),
                       VNode.elem "li" [] (some (PropVal.str "b")) [] (some 2)]).1
          (buildKeyed [VNode.elem "li" [] (some (PropVal.str "a")) [] (some 1),
                       VNode.elem "li" [] (some (PropVal.str "b")) [] (some 2)]).2
          [VNode.elem "li" [] (some (PropVal.str "b")) [] none,
           VNode.elem "li" [] (some (PropVal.str "a")) [] none] =
          some (h1, tr1,
            [VNode.elem "li" [] (some (PropVal.str "b")) [] (some 2),
             VNode.elem "li" [] (some (PropVal.str "a")) [] (some 1)],
            keyedRem, unkeyedRem) ∧
      reconcileDeleteList (fun _ _ => none) 19 h1 (some 0) (keyedRem.map Prod.snd) =
          some (h2, tr2) ∧
      reconcileDeleteList (fun _ _ => none) 19 h2 (some 0) unkeyedRem = some ([], tr3) ∧
      [REvent.record (.reorder (some 0) [2, 1])] = tr1 ++ tr2 ++ tr3 ++
        (if 0 < (([VNode.elem "li" [] (some (PropVal.str "b")) [] (some 2),
                   VNode.elem "li" [] (some (PropVal.str "a")) [] (some 1)]).filterMap
                    resolveDom).length
         then [.record (.reorder (some 0)
                (([VNode.elem "li" [] (some (PropVal.str "b")) [] (some 2),
                   VNode.elem "li" [] (some (PropVal.str "a")) [] (some 1)]).filterMap
                     resolveDom))] else [])) ∧
    (∀ (hp : Heap) (p : Nat),
      commitReorder hp p (([VNode.elem "li" [] (some (PropVal.str "b")) [] (some 2),
          VNode.elem "li" [] (some (PropVal.str "a")) [] (some 1)]).filterMap resolveDom) =
          (hp, []) ↔
        ∀ j, j < (([VNode.elem "li" [] (some (PropVal.str "b")) [] (some 2),
            VNode.elem "li" [] (some (PropVal.str "a")) [] (some 1)]).filterMap
              resolveDom).length →
          childAt hp p j =
            (([VNode.elem "li" [] (some (PropVal.str "b")) [] (some 2),
               VNode.elem "li" [] (some (PropVal.str "a")) [] (some 1)]).filterMap
                 resolveDom).get? j) :=
  keyed_reconcile_reorder_record_and_commit (fun _ _ => none) 19 [] (some 0)
    [VNode.elem "li" [] (some (PropVal.str "a")) [] (some 1),
     VNode.elem "li" [] (some (PropVal.str "b")) [] (some 2)]
    [VNode.elem "li" [] (some (PropVal.str "b")) [] none,
     VNode.elem "li" [] (some (PropVal.str "a")) [] none]
    [] [REvent.record (.reorder (some 0) [2, 1])]
    [VNode.elem "li" [] (some (PropVal.str "b")) [] (some 2),
     VNode.elem "li" [] (some (PropVal.str "a")) [] (some 1)]
    rfl

/-- Heap extension composes. -/
theorem heapExt_trans {h1 h2 h3 : Heap} (a : ∃ e, h2 = h1 ++ e) (b : ∃ e, h3 = h2 ++ e) :
    ∃ e, h3 = h1 ++ e := by
  obtain ⟨e1, he1⟩ := a
  obtain ⟨e2, he2⟩ := b
  exact ⟨e1 ++ e2, by rw [he2, he1, List.append_assoc]⟩

/-- Setting an index past `l1` only rewrites the extension part. -/
theorem list_set_past (l1 : Heap) : ∀ (l2 : Heap) (i : Nat) (d : DomData), l1.length ≤ i →
    (l1 ++ l2).set i d = l1 ++ l2.set (i - l1.length) d := by
  induction l1 with
  | nil => intro l2 i d _; simp
  | cons x xs ih =>
    intro l2 i d hi
    cases i with
    | zero => simp at hi
    | succ i' =>
      have hi' : xs.length ≤ i' := by simp only [List.length_cons] at hi; omega
      have hidx : i' + 1 - (x :: xs).length = i' - xs.length := by
        simp only [List.length_cons]
        omega
      simp only [List.cons_append, List.set_cons_succ, hidx, ih l2 i' d hi']

/-- `setKids` at an index past `l1` leaves `l1` an unchanged initial
segment. -/
theorem setKids_extend (l1 l2 : Heap) (i : Nat) (ks : List Nat) (hi : l1.length ≤ i) :
    ∃ e, setKids (l1 ++ l2) i ks = l1 ++ e := by
  unfold setKids
  cases hg : (l1 ++ l2).get? i with
  | none => exact ⟨l2, rfl⟩
  | some d =>
    cases d with
    | text s => exact ⟨l2, rfl⟩
    | elem t p kids =>
      exact ⟨l2.set (i - l1.length) (.elem t p ks), list_set_past l1 l2 i _ hi⟩

/-- The whole render-phase family only extends the host arena: the input
heap is an unchanged initial segment of each returned heap, so no host node
that exists before the call is inserted into, removed from, replaced or
updated by it — new nodes are only allocated past the end (detached
subtrees). -/
theorem renderPhase_frame : ∀ fuel : Nat,
    (∀ env h v r, mountVNode env fuel h v = some r → ∃ e, r.1 = h ++ e) ∧
    (∀ env h cs r, mountList env fuel h cs = some r → ∃ e, r.1 = h ++ e) ∧
    (∀ env h pd o n r, reconcile env fuel h pd o n = some r → ∃ e, r.1 = h ++ e) ∧
    (∀ env h pd o n r, reconcileHost env fuel h pd o n = some r → ∃ e, r.1 = h ++ e) ∧
    (∀ env h pd os ns r, reconcileChildren env fuel h pd os ns = some r → ∃ e, r.1 = h ++ e) ∧
    (∀ env h pd os ns r, reconcileUnkeyedChildren env fuel h pd os ns = some r →
      ∃ e, r.1 = h ++ e) ∧
    (∀ env h pd kd uk ns r, reconcileNewList env fuel h pd kd uk ns = some r →
      ∃ e, r.1 = h ++ e) ∧
    (∀ env h pd cs r, reconcileDeleteList env fuel h pd cs = some r → ∃ e, r.1 = h ++ e) ∧
    (∀ env h pd os ns r, reconcileKeyedChildren env fuel h pd os ns = some r →
      ∃ e, r.1 = h ++ e) := by
  intro fuel
  induction fuel with
  | zero =>
    refine ⟨fun env h v r hres => by simp [mountVNode] at hres,
            fun env h cs r hres => by simp [mountList] at hres,
            fun env h pd o n r hres => by simp [reconcile] at hres,
            fun env h pd o n r hres => by simp [reconcileHost] at hres,
            fun env h pd os ns r hres => by simp [reconcileChildren] at hres,
            fun env h pd os ns r hres => by simp [reconcileUnkeyedChildren] at hres,
            fun env h pd kd uk ns r hres => by simp [reconcileNewList] at hres,
            fun env h pd cs r hres => by simp [reconcileDeleteList] at hres,
            fun env h pd os ns r hres => by simp [reconcileKeyedChildren] at hres⟩
  | succ fuel ih =>
    obtain ⟨ihMV, ihML, ihR, ihRH, ihRC, ihRU, ihRN, ihRD, ihRK⟩ := ih
    refine ⟨?_, ?_, ?_, ?_, ?_, ?_, ?_, ?_, ?_⟩
    · -- mountVNode
      intro env h v r hres
      obtain ⟨rh, rv, rd⟩ := r
      cases v with
      | text s d =>
        simp [mountVNode, createDom, allocDom] at hres
        exact ⟨[.text s], by rw [← hres.1]⟩
      | comp f p k cs hooks child d =>
        cases he : env f p with
        | none => simp [mountVNode, he] at hres
        | some cv =>
          cases hm : mountVNode env fuel h cv with
          | none => simp [mountVNode, he, hm] at hres
          | some r1 =>
            obtain ⟨h1, c', dd⟩ := r1
            simp [mountVNode, he, hm] at hres
            obtain ⟨e, hee⟩ := ihMV env h cv (h1, c', dd) hm
            exact ⟨e, by rw [← hres.1]; exact hee⟩
      | elem t p k cs d =>
        cases hm : mountList env fuel (h ++ [DomData.elem t p []]) cs with
        | none => simp [mountVNode, createDom, allocDom, hm] at hres
        | some r1 =>
          obtain ⟨h2, cs', kids⟩ := r1
          simp [mountVNode, createDom, allocDom, hm] at hres
          obtain ⟨e, hee⟩ := ihML env (h ++ [DomData.elem t p []]) cs (h2, cs', kids) hm
          replace hee : h2 = h ++ [DomData.elem t p []] ++ e := hee
          obtain ⟨e2, he2⟩ :=
            setKids_extend h ([DomData.elem t p []] ++ e) h.length kids (Nat.le_refl _)
          refine ⟨e2, ?_⟩
          rw [← hres.1, hee, List.append_assoc]
          exact he2
    · -- mountList
      intro env h cs r hres
      obtain ⟨rh, rcs, rds⟩ := r
      cases cs with
      | nil =>
        simp [mountList] at hres
        exact ⟨[], by rw [← hres.1]; simp⟩
      | cons c cs =>
        cases hm : mountVNode env fuel h c with
        | none => simp [mountList, hm] at hres
        | some r1 =>
          obtain ⟨h1, c', d⟩ := r1
          cases hl : mountList env fuel h1 cs with
          | none => simp [mountList, hm, hl] at hres
          | some r2 =>
            obtain ⟨h2, cs', ds⟩ := r2
            simp [mountList, hm, hl] at hres
            obtain ⟨e, hee⟩ := heapExt_trans (ihMV env h c (h1, c', d) hm)
              (ihML env h1 cs (h2, cs', ds) hl)
            exact ⟨e, by rw [← hres.1]; exact hee⟩
    · -- reconcile
      intro env h pd o n r hres
      obtain ⟨rh, rtr, rv⟩ := r
      cases n with
      | none =>
        cases hrh : reconcileHost env fuel h pd (unmountSubstitute o).2 none with
        | none => simp [reconcile, hrh] at hres
        | some r1 =>
          obtain ⟨h1, tr1, v1⟩ := r1
          simp [reconcile, hrh] at hres
          obtain ⟨e, hee⟩ := ihRH env h pd (unmountSubstitute o).2 none (h1, tr1, v1) hrh
          exact ⟨e, by rw [← hres.1]; exact hee⟩
      | some v =>
        cases v with
        | comp f p k cs hooks child d =>
          cases hrc : reconcile env fuel h pd (oldChildOf o) (env f p) with
          | none => simp [reconcile, hrc] at hres
          | some r1 =>
            obtain ⟨h1, tr1, v1⟩ := r1
            simp [reconcile, hrc] at hres
            obtain ⟨e, hee⟩ := ihR env h pd (oldChildOf o) (env f p) (h1, tr1, v1) hrc
            exact ⟨e, by rw [← hres.1]; exact hee⟩
        | text s d =>
          cases hrh : reconcileHost env fuel h pd (unmountSubstitute o).2
              (some (.text s d)) with
          | none => simp [reconcile, hrh] at hres
          | some r1 =>
            obtain ⟨h1, tr1, v1⟩ := r1
            simp [reconcile, hrh] at hres
            obtain ⟨e, hee⟩ := ihRH env h pd (unmountSubstitute o).2 (some (.text s d))
              (h1, tr1, v1) hrh
            exact ⟨e, by rw [← hres.1]; exact hee⟩
        | elem t p k cs d =>
          cases hrh : reconcileHost env fuel h pd (unmountSubstitute o).2
              (some (.elem t p k cs d)) with
          | none => simp [reconcile, hrh] at hres
          | some r1 =>
            obtain ⟨h1, tr1, v1⟩ := r1
            simp [reconcile, hrh] at hres
            obtain ⟨e, hee⟩ := ihRH env h pd (unmountSubstitute o).2 (some (.elem t p k cs d))
              (h1, tr1, v1) hrh
            exact ⟨e, by rw [← hres.1]; exact hee⟩
    · -- reconcileHost
      intro env h pd o n r hres
      obtain ⟨rh, rtr, rv⟩ := r
      cases o with
      | none =>
        cases n with
        | none =>
          simp [reconcileHost] at hres
          exact ⟨[], by rw [← hres.1]; simp⟩
        | some nv =>
          cases hm : mountVNode env fuel h nv with
          | none => simp [reconcileHost, hm] at hres
          | some r1 =>
            obtain ⟨h1, n', d⟩ := r1
            simp [reconcileHost, hm] at hres
            obtain ⟨e, hee⟩ := ihMV env h nv (h1, n', d) hm
            exact ⟨e, by rw [← hres.1]; exact hee⟩
      | some ov =>
        cases n with
        | none =>
          simp [reconcileHost] at hres
          exact ⟨[], by rw [← hres.1]; simp⟩
        | some nv =>
          by_cases hty : ov.jsType ≠ nv.jsType
          · cases hm : mountVNode env fuel h nv with
            | none => simp [reconcileHost, hty, hm] at hres
            | some r1 =>
              obtain ⟨h1, n', d⟩ := r1
              simp [reconcileHost, hty, hm] at hres
              obtain ⟨e, hee⟩ := ihMV env h nv (h1, n', d) hm
              exact ⟨e, by rw [← hres.1]; exact hee⟩
          · by_cases htx : ov.jsType = Sum.inl "TEXT_ELEMENT"
            · cases ov with
              | comp f p k cs hooks child d => simp [VNode.jsType] at htx
              | text sv sd =>
                cases nv with
                | comp f p k cs hooks child d => simp [VNode.jsType] at hty
                | text nv2 nd2 =>
                  simp [reconcileHost, VNode.jsType] at hres
                  by_cases hsv : sv = nv2
                  · rw [if_pos hsv] at hres
                    try simp at hres
                    exact ⟨[], by rw [← hres.1]; simp⟩
                  · rw [if_neg hsv] at hres
                    try simp at hres
                    exact ⟨[], by rw [← hres.1]; simp⟩
                | elem nt np nk ncs nd2 =>
                  simp only [reconcileHost] at hres
                  rw [if_neg hty] at hres
                  simp at hres
                  exact ⟨[], by rw [← hres.1]; simp⟩
              | elem ot op okk ocs od =>
                cases nv with
                | comp f p k cs hooks child d => simp [VNode.jsType] at hty
                | text nv2 nd2 =>
                  simp only [reconcileHost] at hres
                  rw [if_neg hty, if_pos htx] at hres
                  simp at hres
                  exact ⟨[], by rw [← hres.1]; simp⟩
                | elem nt np nk ncs nd2 =>
                  simp only [reconcileHost] at hres
                  rw [if_neg hty, if_pos htx] at hres
                  simp at hres
                  exact ⟨[], by rw [← hres.1]; simp⟩
            · cases ov with
              | text sv sd => exact absurd rfl htx
              | comp f p k cs hooks child d =>
                cases nv with
                | text nv2 nd2 => simp [VNode.jsType] at hty
                | elem nt np nk ncs nd2 => simp [VNode.jsType] at hty
                | comp f2 p2 k2 cs2 hooks2 child2 d2 =>
                  simp only [reconcileHost] at hres
                  rw [if_neg hty, if_neg htx] at hres
                  simp at hres
                  exact ⟨[], by rw [← hres.1]; simp⟩
              | elem ot op okk ocs od =>
                cases nv with
                | text s d =>
                  simp [VNode.jsType] at hty htx
                  exact absurd hty htx
                | comp f p k cs hooks child d => simp [VNode.jsType] at hty
                | elem nt np nk ncs nd0 =>
                  cases hrc : reconcileChildren env fuel h od ocs ncs with
                  | none =>
                    simp only [reconcileHost] at hres
                    rw [if_neg hty, if_neg htx] at hres
                    simp [hrc] at hres
                  | some r1 =>
                    obtain ⟨h1, trc, ncs'⟩ := r1
                    simp only [reconcileHost] at hres
                    rw [if_neg hty, if_neg htx] at hres
                    simp [hrc] at hres
                    obtain ⟨e, hee⟩ := ihRC env h od ocs ncs (h1, trc, ncs') hrc
                    exact ⟨e, by rw [← hres.1]; exact hee⟩
    · -- reconcileChildren
      intro env h pd os ns r hres
      simp only [reconcileChildren] at hres
      split at hres
      · exact ihRK env h pd os ns r hres
      · exact ihRU env h pd os ns r hres
    · -- reconcileUnkeyedChildren
      intro env h pd os ns r hres
      obtain ⟨rh, rtr, rns⟩ := r
      cases os with
      | nil =>
        cases ns with
        | nil =>
          simp [reconcileUnkeyedChildren] at hres
          exact ⟨[], by rw [← hres.1]; simp⟩
        | cons nn ns =>
          cases hr1 : reconcile env fuel h pd none (some nn) with
          | none => simp [reconcileUnkeyedChildren, hr1] at hres
          | some r1 =>
            obtain ⟨h1, tr1, v1⟩ := r1
            cases v1 with
            | none => simp [reconcileUnkeyedChildren, hr1] at hres
            | some n' =>
              cases hr2 : reconcileUnkeyedChildren env fuel h1 pd [] ns with
              | none => simp [reconcileUnkeyedChildren, hr1, hr2] at hres
              | some r2 =>
                obtain ⟨h2, tr2, ns'⟩ := r2
                simp [reconcileUnkeyedChildren, hr1, hr2] at hres
                obtain ⟨e, hee⟩ := heapExt_trans
                  (ihR env h pd none (some nn) (h1, tr1, some n') hr1)
                  (ihRU env h1 pd [] ns (h2, tr2, ns') hr2)
                exact ⟨e, by rw [← hres.1]; exact hee⟩
      | cons oo os =>
        cases ns with
        | nil =>
          cases hr1 : reconcile env fuel h pd (some oo) none with
          | none => simp [reconcileUnkeyedChildren, hr1] at hres
          | some r1 =>
            obtain ⟨h1, tr1, v1⟩ := r1
            cases hr2 : reconcileUnkeyedChildren env fuel h1 pd os [] with
            | none => simp [reconcileUnkeyedChildren, hr1, hr2] at hres
            | some r2 =>
              obtain ⟨h2, tr2, ns'⟩ := r2
              simp [reconcileUnkeyedChildren, hr1, hr2] at hres
              obtain ⟨e, hee⟩ := heapExt_trans
                (ihR env h pd (some oo) none (h1, tr1, v1) hr1)
                (ihRU env h1 pd os [] (h2, tr2, ns') hr2)
              exact ⟨e, by rw [← hres.1]; exact hee⟩
        | cons nn ns =>
          cases hr1 : reconcile env fuel h pd (some oo) (some nn) with
          | none => simp [reconcileUnkeyedChildren, hr1] at hres
          | some r1 =>
            obtain ⟨h1, tr1, v1⟩ := r1
            cases v1 with
            | none => simp [reconcileUnkeyedChildren, hr1] at hres
            | some n' =>
              cases hr2 : reconcileUnkeyedChildren env fuel h1 pd os ns with
              | none => simp [reconcileUnkeyedChildren, hr1, hr2] at hres
              | some r2 =>
                obtain ⟨h2, tr2, ns'⟩ := r2
                simp [reconcileUnkeyedChildren, hr1, hr2] at hres
                obtain ⟨e, hee⟩ := heapExt_trans
                  (ihR env h pd (some oo) (some nn) (h1, tr1, some n') hr1)
                  (ihRU env h1 pd os ns (h2, tr2, ns') hr2)
                exact ⟨e, by rw [← hres.1]; exact hee⟩
    · -- reconcileNewList
      intro env h pd kd uk ns r hres
      obtain ⟨rh, rtr, rns, rkd, ruk⟩ := r
      cases ns with
      | nil =>
        simp [reconcileNewList] at hres
        exact ⟨[], by rw [← hres.1]; simp⟩
      | cons nn ns =>
        rcases hk : nn.keyAnn with _ | k
        · cases hr1 : reconcile env fuel h pd uk.head? (some nn) with
          | none => simp [reconcileNewList, hk, hr1] at hres
          | some r1 =>
            obtain ⟨h1, tr1, v1⟩ := r1
            cases v1 with
            | none => simp [reconcileNewList, hk, hr1] at hres
            | some n' =>
              cases hr2 : reconcileNewList env fuel h1 pd kd uk.tail ns with
              | none => simp [reconcileNewList, hk, hr1, hr2] at hres
              | some r2 =>
                obtain ⟨h2, tr2, ns', kd', uk'⟩ := r2
                simp [reconcileNewList, hk, hr1, hr2] at hres
                obtain ⟨e, hee⟩ := heapExt_trans
                  (ihR env h pd uk.head? (some nn) (h1, tr1, some n') hr1)
                  (ihRN env h1 pd kd uk.tail ns (h2, tr2, ns', kd', uk') hr2)
                exact ⟨e, by rw [← hres.1]; exact hee⟩
        · cases hg : assocGet kd k with
          | none =>
            cases hr1 : reconcile env fuel h pd none (some nn) with
            | none => simp [reconcileNewList, hk, hg, hr1] at hres
            | some r1 =>
              obtain ⟨h1, tr1, v1⟩ := r1
              cases v1 with
              | none => simp [reconcileNewList, hk, hg, hr1] at hres
              | some n' =>
                cases hr2 : reconcileNewList env fuel h1 pd kd uk ns with
                | none => simp [reconcileNewList, hk, hg, hr1, hr2] at hres
                | some r2 =>
                  obtain ⟨h2, tr2, ns', kd', uk'⟩ := r2
                  simp [reconcileNewList, hk, hg, hr1, hr2] at hres
                  obtain ⟨e, hee⟩ := heapExt_trans
                    (ihR env h pd none (some nn) (h1, tr1, some n') hr1)
                    (ihRN env h1 pd kd uk ns (h2, tr2, ns', kd', uk') hr2)
                  exact ⟨e, by rw [← hres.1]; exact hee⟩
          | some m =>
            cases hr1 : reconcile env fuel h pd (some m) (some nn) with
            | none => simp [reconcileNewList, hk, hg, hr1] at hres
            | some r1 =>
              obtain ⟨h1, tr1, v1⟩ := r1
              cases v1 with
              | none => simp [reconcileNewList, hk, hg, hr1] at hres
              | some n' =>
                cases hr2 : reconcileNewList env fuel h1 pd (assocDelete kd k) uk ns with
                | none => simp [reconcileNewList, hk, hg, hr1, hr2] at hres
                | some r2 =>
                  obtain ⟨h2, tr2, ns', kd', uk'⟩ := r2
                  simp [reconcileNewList, hk, hg, hr1, hr2] at hres
                  obtain ⟨e, hee⟩ := heapExt_trans
                    (ihR env h pd (some m) (some nn) (h1, tr1, some n') hr1)
                    (ihRN env h1 pd (assocDelete kd k) uk ns (h2, tr2, ns', kd', uk') hr2)
                  exact ⟨e, by rw [← hres.1]; exact hee⟩
    · -- reconcileDeleteList
      intro env h pd cs r hres
      obtain ⟨rh, rtr⟩ := r
      cases cs with
      | nil =>
        simp [reconcileDeleteList] at hres
        exact ⟨[], by rw [← hres.1]; simp⟩
      | cons c cs =>
        cases hr1 : reconcile env fuel h pd (some c) none with
        | none => simp [reconcileDeleteList, hr1] at hres
        | some r1 =>
          obtain ⟨h1, tr1, v1⟩ := r1
          cases hr2 : reconcileDeleteList env fuel h1 pd cs with
          | none => simp [reconcileDeleteList, hr1, hr2] at hres
          | some r2 =>
            obtain ⟨h2, tr2⟩ := r2
            simp [reconcileDeleteList, hr1, hr2] at hres
            obtain ⟨e, hee⟩ := heapExt_trans
              (ihR env h pd (some c) none (h1, tr1, v1) hr1)
              (ihRD env h1 pd cs (h2, tr2) hr2)
            exact ⟨e, by rw [← hres.1]; exact hee⟩
    · -- reconcileKeyedChildren
      intro env h pd os ns r hres
      obtain ⟨rh, rtr, rns⟩ := r
      cases hn : reconcileNewList env fuel h pd (buildKeyed os).1 (buildKeyed os).2 ns with
      | none => simp [reconcileKeyedChildren, hn] at hres
      | some r1 =>
        obtain ⟨h1, tr1, ns1, kr, ur⟩ := r1
        cases hd1 : reconcileDeleteList env fuel h1 pd (kr.map Prod.snd) with
        | none => simp [reconcileKeyedChildren, hn, hd1] at hres
        | some r2 =>
          obtain ⟨h2, tr2⟩ := r2
          cases hd2 : reconcileDeleteList env fuel h2 pd ur with
          | none => simp [reconcileKeyedChildren, hn, hd1, hd2] at hres
          | some r3 =>
            obtain ⟨h3, tr3⟩ := r3
            simp only [reconcileKeyedChildren, hn, hd1, hd2, Option.some.injEq,
              Prod.mk.injEq] at hres
            obtain ⟨e, hee⟩ := heapExt_trans (heapExt_trans
              (ihRN env h pd (buildKeyed os).1 (buildKeyed os).2 ns (h1, tr1, ns1, kr, ur) hn)
              (ihRD env h1 pd (kr.map Prod.snd) (h2, tr2) hd1))
              (ihRD env h2 pd ur (h3, tr3) hd2)
            exact ⟨e, by rw [← hres.1]; exact hee⟩

/-- C1.  A `reconcile` call never mutates the host tree itself: the input
heap is an unchanged initial segment of the returned heap, so every host
node existing before the call — including its child list — is bit-identical
afterwards (nothing inserted, removed, replaced or updated); new host nodes
are only allocated past the end, as detached subtrees, and the call merely
appends records to the trace for `commitRoot` to apply later. -/
theorem reconcile_render_phase_frame (env : CompEnv) (fuel : Nat) (h : Heap)
    (pd : Option Nat) (oldV newV : Option VNode) (h' : Heap) (tr : List REvent)
    (v' : Option VNode)
    (hres : reconcile env fuel h pd oldV newV = some (h', tr, v')) :
    (∃ ext, h' = h ++ ext) ∧
    ∀ i, i < h.length → h'[i]? = h[i]? := by
  obtain ⟨e, hee⟩ := (renderPhase_frame fuel).2.2.1 env h pd oldV newV (h', tr, v') hres
  replace hee : h' = h ++ e := hee
  refine ⟨⟨e, hee⟩, ?_⟩
  intro i hi
  rw [hee]
  exact List.getElem?_append_left hi

/-- Witness for C1: mounting a fresh text node under an existing one-node
heap leaves that node untouched and only appends the new allocation. -/
theorem reconcile_render_phase_frame_witness :
    (∃ ext, [DomData.text "hi", DomData.text "x"] = [DomData.text "hi"] ++ ext) ∧
    ∀ i, i < [DomData.text "hi"].length →
      [DomData.text "hi", DomData.text "x"][i]? = [DomData.text "hi"][i]? :=
  reconcile_render_phase_frame (fun _ _ => none) 4 [DomData.text "hi"] none none
    (some (.text "x" none)) [DomData.text "hi", DomData.text "x"]
    [.record (.placement 1 none)] (some (.text "x" (some 1))) rfl

end MiniReact
